import Mathlib

/-!
Verification of the QPy quantum-circuit simulator (`src/qpy/gates.py`).

The source builds dense operator matrices for an n-qubit register out of
numpy primitives (np.kron, np.outer, np.dot/@, np.eye, +).  We embed the
code shallowly:

* scalars: the subfield ℚ(ζ₈) of ℂ, where ζ₈ = e^(i·π/4).  Every number the
  claims touch (0, 1, -1, 1/√2, i, e^(i·π/4)) lies in this field, and its
  arithmetic is computable with decidable equality, so concrete claims can
  be settled by evaluation.  An element c0 + c1·ζ + c2·ζ² + c3·ζ³ is stored
  as four rationals; ζ⁴ = -1 drives the multiplication, and complex
  conjugation sends ζ to -ζ³.
* matrices: a numpy ndarray becomes `Mat R` — explicit row/column counts
  plus a total entry function ℕ → ℕ → R.  By convention every concrete
  matrix constant is written with entries equal to 0 outside its declared
  shape; entry values outside the shape of a computed matrix carry no
  meaning, and `Mat.Eq` compares two matrices the way numpy equality does
  (same shape, same entries inside the shape).
* a Python function that can `raise` becomes a function into
  `Except String (Mat R)`, carrying the raised message; Python's
  `[I]*(negative)` is the empty list, which truncated ℕ subtraction
  reproduces, and an integer guard `x <= n - 1` is rendered as `x < n`,
  its exact meaning over ℤ for natural `x`, `n`.
-/

namespace QPy

/-- An element of ℚ(ζ₈) ⊂ ℂ, written c0 + c1·ζ + c2·ζ² + c3·ζ³ for
ζ = e^(i·π/4).  Note ζ² = i and ζ - ζ³ = √2. -/
structure K where
  c0 : ℚ
  c1 : ℚ
  c2 : ℚ
  c3 : ℚ
deriving DecidableEq

theorem K.ext_components {x y : K} (h0 : x.c0 = y.c0) (h1 : x.c1 = y.c1)
    (h2 : x.c2 = y.c2) (h3 : x.c3 = y.c3) : x = y := by
  cases x; cases y; dsimp at h0 h1 h2 h3; subst h0; subst h1; subst h2; subst h3; rfl

instance : Zero K := ⟨⟨0, 0, 0, 0⟩⟩
instance : One K := ⟨⟨1, 0, 0, 0⟩⟩
instance : Add K := ⟨fun x y => ⟨x.c0 + y.c0, x.c1 + y.c1, x.c2 + y.c2, x.c3 + y.c3⟩⟩
instance : Neg K := ⟨fun x => ⟨-x.c0, -x.c1, -x.c2, -x.c3⟩⟩

/-- Multiplication in ℚ(ζ₈): polynomial product reduced by ζ⁴ = -1. -/
instance : Mul K :=
  ⟨fun x y =>
    ⟨x.c0 * y.c0 - x.c1 * y.c3 - x.c2 * y.c2 - x.c3 * y.c1,
     x.c0 * y.c1 + x.c1 * y.c0 - x.c2 * y.c3 - x.c3 * y.c2,
     x.c0 * y.c2 + x.c1 * y.c1 + x.c2 * y.c0 - x.c3 * y.c3,
     x.c0 * y.c3 + x.c1 * y.c2 + x.c2 * y.c1 + x.c3 * y.c0⟩⟩

@[simp] theorem K.zero_c0 : (0 : K).c0 = 0 := rfl
@[simp] theorem K.zero_c1 : (0 : K).c1 = 0 := rfl
@[simp] theorem K.zero_c2 : (0 : K).c2 = 0 := rfl
@[simp] theorem K.zero_c3 : (0 : K).c3 = 0 := rfl
@[simp] theorem K.one_c0 : (1 : K).c0 = 1 := rfl
@[simp] theorem K.one_c1 : (1 : K).c1 = 0 := rfl
@[simp] theorem K.one_c2 : (1 : K).c2 = 0 := rfl
@[simp] theorem K.one_c3 : (1 : K).c3 = 0 := rfl
@[simp] theorem K.add_c0 (x y : K) : (x + y).c0 = x.c0 + y.c0 := rfl
@[simp] theorem K.add_c1 (x y : K) : (x + y).c1 = x.c1 + y.c1 := rfl
@[simp] theorem K.add_c2 (x y : K) : (x + y).c2 = x.c2 + y.c2 := rfl
@[simp] theorem K.add_c3 (x y : K) : (x + y).c3 = x.c3 + y.c3 := rfl
@[simp] theorem K.neg_c0 (x : K) : (-x).c0 = -x.c0 := rfl
@[simp] theorem K.neg_c1 (x : K) : (-x).c1 = -x.c1 := rfl
@[simp] theorem K.neg_c2 (x : K) : (-x).c2 = -x.c2 := rfl
@[simp] theorem K.neg_c3 (x : K) : (-x).c3 = -x.c3 := rfl
@[simp] theorem K.mul_c0 (x y : K) :
    (x * y).c0 = x.c0 * y.c0 - x.c1 * y.c3 - x.c2 * y.c2 - x.c3 * y.c1 := rfl
@[simp] theorem K.mul_c1 (x y : K) :
    (x * y).c1 = x.c0 * y.c1 + x.c1 * y.c0 - x.c2 * y.c3 - x.c3 * y.c2 := rfl
@[simp] theorem K.mul_c2 (x y : K) :
    (x * y).c2 = x.c0 * y.c2 + x.c1 * y.c1 + x.c2 * y.c0 - x.c3 * y.c3 := rfl
@[simp] theorem K.mul_c3 (x y : K) :
    (x * y).c3 = x.c0 * y.c3 + x.c1 * y.c2 + x.c2 * y.c1 + x.c3 * y.c0 := rfl

instance : CommRing K where
  add_assoc := by intros; apply K.ext_components <;> simp <;> ring
  zero_add := by intros; apply K.ext_components <;> simp
  add_zero := by intros; apply K.ext_components <;> simp
  add_comm := by intros; apply K.ext_components <;> simp <;> ring
  neg_add_cancel := by intros; apply K.ext_components <;> simp
  mul_assoc := by intros; apply K.ext_components <;> simp <;> ring
  one_mul := by intros; apply K.ext_components <;> simp
  mul_one := by intros; apply K.ext_components <;> simp
  left_distrib := by intros; apply K.ext_components <;> simp <;> ring
  right_distrib := by intros; apply K.ext_components <;> simp <;> ring
  zero_mul := by intros; apply K.ext_components <;> simp
  mul_zero := by intros; apply K.ext_components <;> simp
  mul_comm := by intros; apply K.ext_components <;> simp <;> ring
  nsmul := nsmulRec
  zsmul := zsmulRec

/-- Complex conjugation on ℚ(ζ₈): ζ ↦ ζ⁻¹ = -ζ³. -/
instance : StarRing K where
  star := fun x => ⟨x.c0, -x.c3, -x.c2, -x.c1⟩
  star_involutive := by intro x; apply K.ext_components <;> simp
  star_mul := by intros x y; apply K.ext_components <;> simp <;> ring
  star_add := by intros x y; apply K.ext_components <;> simp <;> ring

@[simp] theorem K.star_c0 (x : K) : (star x).c0 = x.c0 := rfl
@[simp] theorem K.star_c1 (x : K) : (star x).c1 = -x.c3 := rfl
@[simp] theorem K.star_c2 (x : K) : (star x).c2 = -x.c2 := rfl
@[simp] theorem K.star_c3 (x : K) : (star x).c3 = -x.c1 := rfl

/-- √2 = ζ - ζ³ as an element of ℚ(ζ₈). -/
def sqrt2 : K := ⟨0, 1, 0, -1⟩

/-- 1/√2 = √2/2 as an element of ℚ(ζ₈). -/
def invSqrt2 : K := ⟨0, 1/2, 0, -1/2⟩

/-- The name `sqrt2` is justified: its square is 2 and it is fixed by
conjugation (it is a positive real). -/
theorem sqrt2_spec : sqrt2 * sqrt2 = (1 : K) + 1 ∧ star sqrt2 = sqrt2 := by
  constructor <;> apply K.ext_components <;> simp [sqrt2] <;> ring

/-- The name `invSqrt2` is justified: it is the multiplicative inverse of
`sqrt2`. -/
theorem invSqrt2_spec : invSqrt2 * sqrt2 = (1 : K) := by
  apply K.ext_components <;> simp [sqrt2, invSqrt2] <;> ring

/-- A dense matrix as numpy holds it: a shape (`rows` × `cols`) together
with its entries.  The entry function is total; entries outside the shape
are meaningless (constants below set them to 0). -/
structure Mat (R : Type) where
  rows : ℕ
  cols : ℕ
  entry : ℕ → ℕ → R

theorem Mat.ext_entries {R : Type} {A B : Mat R} (hr : A.rows = B.rows)
    (hc : A.cols = B.cols) (he : A.entry = B.entry) : A = B := by
  cases A; cases B; dsimp at hr hc he; subst hr; subst hc; subst he; rfl

variable {R : Type} [CommRing R]

/-- Finite sum f 0 + f 1 + ⋯ + f (n-1), used for matrix products. -/
def rsum (f : ℕ → R) : ℕ → R
  | 0 => 0
  | n + 1 => rsum f n + f n

/-- Elementwise sum (numpy `+`; shapes agree in every use, the shape of the
first operand is carried). -/
def Mat.add (A B : Mat R) : Mat R :=
  ⟨A.rows, A.cols, fun i j => A.entry i j + B.entry i j⟩

/-- Scalar multiple (numpy `scalar *`). -/
def Mat.smul (a : R) (A : Mat R) : Mat R :=
  ⟨A.rows, A.cols, fun i j => a * A.entry i j⟩

/-- Matrix product (numpy `@` / np.dot). -/
def Mat.mul (A B : Mat R) : Mat R :=
  ⟨A.rows, B.cols, fun i j => rsum (fun k => A.entry i k * B.entry k j) A.cols⟩

/-- Kronecker product (np.kron): block structure by division and remainder
on the index. -/
def Mat.kron (A B : Mat R) : Mat R :=
  ⟨A.rows * B.rows, A.cols * B.cols, fun i j =>
    A.entry (i / B.rows) (j / B.cols) * B.entry (i % B.rows) (j % B.cols)⟩

/-- Outer product of two column vectors (np.outer). -/
def Mat.outer (u v : Mat R) : Mat R :=
  ⟨u.rows, v.rows, fun i j => u.entry i 0 * v.entry j 0⟩

/-- Conjugate transpose (the dagger of the spec). -/
def Mat.dagger [StarRing R] (A : Mat R) : Mat R :=
  ⟨A.cols, A.rows, fun i j => star (A.entry j i)⟩

/-- The m × m identity matrix. -/
def idMat (m : ℕ) : Mat R := ⟨m, m, fun i j => if i = j ∧ i < m then 1 else 0⟩

/-- All entries vanish (everywhere, hence in particular inside the shape). -/
def Mat.IsZero (A : Mat R) : Prop := ∀ i j, A.entry i j = 0

/-- Numpy array equality: same shape and the same entries inside it. -/
def Mat.Eq (A B : Mat R) : Prop :=
  A.rows = B.rows ∧ A.cols = B.cols ∧
    ∀ i, i < A.rows → ∀ j, j < A.cols → A.entry i j = B.entry i j

instance {A B : Mat K} : Decidable (Mat.Eq A B) := by
  unfold Mat.Eq; infer_instance

/-- Source `kron`: left fold of np.kron over a list of operators
(`kron([A, B, C]) = np.kron(np.kron(A, B), C)`).  The source reads
`operators[0]` first, so the empty list is outside its domain; we give it a
harmless 1 × 1 value. -/
def kron (operators : List (Mat R)) : Mat R :=
  match operators with
  | [] => ⟨1, 1, fun _ _ => 1⟩
  | a :: rest => rest.foldl Mat.kron a

/-- Source `zero = np.array([1,0])`, as a column vector. -/
def zero : Mat R := ⟨2, 1, fun i j => if i = 0 ∧ j = 0 then 1 else 0⟩

/-- Source `one = np.array([0,1])`, as a column vector. -/
def one : Mat R := ⟨2, 1, fun i j => if i = 1 ∧ j = 0 then 1 else 0⟩

/-- Source `I = np.eye(2)`. -/
def I : Mat R := idMat 2

/-- Source `X = np.array([[0,1],[1,0]])`. -/
def X : Mat R :=
  ⟨2, 2, fun i j => if (i = 0 ∧ j = 1) ∨ (i = 1 ∧ j = 0) then 1 else 0⟩

/-- Source `H = 1/np.sqrt(2) * np.array([[1,1],[1,-1]])`. -/
def H : Mat K :=
  Mat.smul invSqrt2
    ⟨2, 2, fun i j => if i = 1 ∧ j = 1 then -1 else if i < 2 ∧ j < 2 then 1 else 0⟩

/-- Source `cnot`: the fixed 4 × 4 controlled-NOT matrix. -/
def cnot : Mat R :=
  ⟨4, 4, fun i j =>
    if (i = 0 ∧ j = 0) ∨ (i = 1 ∧ j = 1) ∨ (i = 2 ∧ j = 3) ∨ (i = 3 ∧ j = 2)
    then 1 else 0⟩

/-- The projector |0⟩⟨0| — in the source always the inline expression
`np.outer(zero, zero)`. -/
def P0 : Mat R := Mat.outer zero zero

/-- The projector |1⟩⟨1| — in the source always `np.outer(one, one)`. -/
def P1 : Mat R := Mat.outer one one

/-- Source `add_gate`: embed a gate at position `targetq` with identity
padding (`[I]*start_pad + [gate] + [I]*end_pad`).  Python's negative repeat
count gives `[]`, exactly as truncated ℕ subtraction does. -/
def add_gate (gate : Mat R) (targetq num_qubits : ℕ) : Mat R :=
  kron (List.replicate targetq I ++ [gate] ++
    List.replicate (num_qubits - (targetq + 1)) I)

/-- Source `control_gate`: the two-term projector decomposition of a
controlled gate, with the source's validation (note the inclusive bound
`0 <= q <= num_qubits`). -/
def control_gate (gate : Mat R) (control_qubit target_qubit num_qubits : ℕ) :
    Except String (Mat R) :=
  if control_qubit = target_qubit then
    .error "Control and Target qubits must be different."
  else if num_qubits < control_qubit ∨ num_qubits < target_qubit then
    .error "Error"
  else if control_qubit < target_qubit then
    .ok (Mat.add (add_gate P0 control_qubit num_qubits)
      (kron (List.replicate control_qubit I ++ [P1] ++
        List.replicate (target_qubit - control_qubit - 1) I ++ [gate] ++
        List.replicate (num_qubits - target_qubit - 1) I)))
  else
    .ok (Mat.add (add_gate P0 control_qubit num_qubits)
      (kron (List.replicate target_qubit I ++ [gate] ++
        List.replicate (control_qubit - target_qubit - 1) I ++ [P1] ++
        List.replicate (num_qubits - control_qubit - 1) I)))

/-- Source `cnot_adj`: fast path for an adjacent CNOT, padding the fixed
4 × 4 `cnot` matrix. -/
def cnot_adj (controlq targetq num_qubits : ℕ) : Except String (Mat R) :=
  if targetq ≠ controlq + 1 then
    .error "Control and Target qubits must be adjacent."
  else
    .ok (kron (List.replicate controlq I ++ [cnot] ++
      List.replicate (num_qubits - (targetq + 1)) I))

/-- Source `cnot_nonadj`: general CNOT via the projector decomposition,
with the same (inclusive) validation as `control_gate`. -/
def cnot_nonadj (control_qubit target_qubit num_qubits : ℕ) :
    Except String (Mat R) :=
  if control_qubit = target_qubit then
    .error "Control and Target qubits must be different."
  else if num_qubits < control_qubit ∨ num_qubits < target_qubit then
    .error "Error"
  else if control_qubit < target_qubit then
    .ok (Mat.add
      (kron (List.replicate control_qubit I ++ [P0] ++
        List.replicate (num_qubits - control_qubit - 1) I))
      (kron (List.replicate control_qubit I ++ [P1] ++
        List.replicate (target_qubit - control_qubit - 1) I ++ [X] ++
        List.replicate (num_qubits - target_qubit - 1) I)))
  else
    .ok (Mat.add
      (kron (List.replicate control_qubit I ++ [P0] ++
        List.replicate (num_qubits - control_qubit - 1) I))
      (kron (List.replicate target_qubit I ++ [X] ++
        List.replicate (control_qubit - target_qubit - 1) I ++ [P1] ++
        List.replicate (num_qubits - control_qubit - 1) I)))

/-- Source `generate_ghz_state`: start from |0…0⟩, apply a Hadamard at
qubit 0, then the chain of adjacent CNOTs `(i, i+1)` for
`i = 0 … num_qubits-2`. -/
def generate_ghz_state (num_qubits : ℕ) : Except String (Mat K) :=
  let init : Mat K := kron (List.replicate num_qubits zero)
  let start : Mat K := (add_gate H 0 num_qubits).mul init
  (List.range (num_qubits - 1)).foldlM
    (fun st i => (cnot_adj i (i + 1) num_qubits).map (fun g => g.mul st)) start

/-- Source `TOFFOLI`: validation, ascending sort of the two controls, then
one of three four-term projector decompositions depending on where the
target sits.  The trailing branch models Python's fall-through, where no
`operator` is ever assigned. -/
def TOFFOLI (control1 control2 target num_qubits : ℕ) :
    Except String (Mat R) :=
  if control1 = target ∨ control2 = target then
    .error "Control and Target qubits must be different."
  else if ¬ control1 < num_qubits ∨ ¬ target < num_qubits ∨ ¬ control2 < num_qubits then
    .error "Control and target qubits must be within range"
  else
    let c1 := min control1 control2
    let c2 := max control1 control2
    if c2 < target then
      .ok (Mat.add (Mat.add (Mat.add
        (kron (List.replicate c1 I ++ [P0] ++ List.replicate (c2 - c1 - 1) I ++
          [P0] ++ List.replicate (target - c2 - 1) I ++ [I] ++
          List.replicate (num_qubits - target - 1) I))
        (kron (List.replicate c1 I ++ [P1] ++ List.replicate (c2 - c1 - 1) I ++
          [P0] ++ List.replicate (target - c2 - 1) I ++ [I] ++
          List.replicate (num_qubits - target - 1) I)))
        (kron (List.replicate c1 I ++ [P0] ++ List.replicate (c2 - c1 - 1) I ++
          [P1] ++ List.replicate (target - c2 - 1) I ++ [I] ++
          List.replicate (num_qubits - target - 1) I)))
        (kron (List.replicate c1 I ++ [P1] ++ List.replicate (c2 - c1 - 1) I ++
          [P1] ++ List.replicate (target - c2 - 1) I ++ [X] ++
          List.replicate (num_qubits - target - 1) I)))
    else if c1 < target ∧ target < c2 then
      .ok (Mat.add (Mat.add (Mat.add
        (kron (List.replicate c1 I ++ [P0] ++ List.replicate (target - c1 - 1) I ++
          [I] ++ List.replicate (c2 - target - 1) I ++ [P0] ++
          List.replicate (num_qubits - c2 - 1) I))
        (kron (List.replicate c1 I ++ [P1] ++ List.replicate (target - c1 - 1) I ++
          [I] ++ List.replicate (c2 - target - 1) I ++ [P0] ++
          List.replicate (num_qubits - c2 - 1) I)))
        (kron (List.replicate c1 I ++ [P0] ++ List.replicate (target - c1 - 1) I ++
          [I] ++ List.replicate (c2 - target - 1) I ++ [P1] ++
          List.replicate (num_qubits - c2 - 1) I)))
        (kron (List.replicate c1 I ++ [P1] ++ List.replicate (target - c1 - 1) I ++
          [X] ++ List.replicate (c2 - target - 1) I ++ [P1] ++
          List.replicate (num_qubits - c2 - 1) I)))
    else if target < c1 then
      .ok (Mat.add (Mat.add (Mat.add
        (kron (List.replicate target I ++ [I] ++ List.replicate (c1 - target - 1) I ++
          [P0] ++ List.replicate (c2 - c1 - 1) I ++ [P0] ++
          List.replicate (num_qubits - c2 - 1) I))
        (kron (List.replicate target I ++ [I] ++ List.replicate (c1 - target - 1) I ++
          [P1] ++ List.replicate (c2 - c1 - 1) I ++ [P0] ++
          List.replicate (num_qubits - c2 - 1) I)))
        (kron (List.replicate target I ++ [I] ++ List.replicate (c1 - target - 1) I ++
          [P0] ++ List.replicate (c2 - c1 - 1) I ++ [P1] ++
          List.replicate (num_qubits - c2 - 1) I)))
        (kron (List.replicate target I ++ [X] ++ List.replicate (c1 - target - 1) I ++
          [P1] ++ List.replicate (c2 - c1 - 1) I ++ [P1] ++
          List.replicate (num_qubits - c2 - 1) I)))
    else
      .error "operator is not defined"

/-- Holds when the call succeeded and its matrix equals `B` in the numpy
sense. -/
def okAnd : Except String (Mat K) → Mat K → Prop
  | .ok A, B => Mat.Eq A B
  | .error _, _ => False

instance : (e : Except String (Mat K)) → (B : Mat K) → Decidable (okAnd e B)
  | .ok _, _ => inferInstanceAs (Decidable (Mat.Eq _ _))
  | .error _, _ => inferInstanceAs (Decidable False)

/-- The matrix of a successful call (“garbage” 0 × 0 matrix on error; used
only where success is also asserted). -/
def exGet (e : Except String (Mat R)) : Mat R :=
  match e with
  | .ok M => M
  | .error _ => ⟨0, 0, fun _ _ => 0⟩

/-- Whether a call succeeded. -/
def okE (e : Except String (Mat R)) : Bool :=
  match e with
  | .ok _ => true
  | .error _ => false

theorem rsum_congr {f g : ℕ → R} {n : ℕ} (h : ∀ k, k < n → f k = g k) :
    rsum f n = rsum g n := by
  induction n with
  | zero => rfl
  | succ n ih =>
    rw [rsum, rsum, ih (fun k hk => h k (by omega)), h n (by omega)]

theorem rsum_zero_fun (n : ℕ) : rsum (fun _ => (0 : R)) n = 0 := by
  induction n with
  | zero => rfl
  | succ n ih => rw [rsum, ih, add_zero]

theorem rsum_add_distrib (f g : ℕ → R) (n : ℕ) :
    rsum (fun k => f k + g k) n = rsum f n + rsum g n := by
  induction n with
  | zero => simp [rsum]
  | succ n ih => rw [rsum, rsum, rsum, ih]; ring

theorem rsum_mul_left (c : R) (f : ℕ → R) (n : ℕ) :
    rsum (fun k => c * f k) n = c * rsum f n := by
  induction n with
  | zero => simp [rsum]
  | succ n ih => rw [rsum, rsum, ih]; ring

theorem rsum_mul_right (c : R) (f : ℕ → R) (n : ℕ) :
    rsum (fun k => f k * c) n = rsum f n * c := by
  induction n with
  | zero => simp [rsum]
  | succ n ih => rw [rsum, rsum, ih]; ring

theorem rsum_split (f : ℕ → R) (a b : ℕ) :
    rsum f (a + b) = rsum f a + rsum (fun i => f (a + i)) b := by
  induction b with
  | zero => simp [rsum]
  | succ b ih => rw [show a + (b + 1) = (a + b) + 1 from rfl, rsum, rsum, ih]; ring

theorem rsum_two (f : ℕ → R) : rsum f 2 = f 0 + f 1 := by
  simp [rsum]

/-- Splitting a sum over `m * n` indices into blocks of `n` via division and
remainder. -/
theorem rsum_block (g : ℕ → ℕ → R) (m n : ℕ) :
    rsum (fun k => g (k / n) (k % n)) (m * n) = rsum (fun k1 => rsum (g k1) n) m := by
  rcases Nat.eq_zero_or_pos n with hn | hn
  · subst hn
    rw [Nat.mul_zero,
      show (fun k1 => rsum (g k1) 0) = (fun _ : ℕ => (0 : R)) from rfl,
      rsum_zero_fun]
    rfl
  · induction m with
    | zero => rw [Nat.zero_mul]; rfl
    | succ m ih =>
      rw [Nat.succ_mul, rsum_split, ih, rsum]
      congr 1
      refine rsum_congr fun i hi => ?_
      have hd : (m * n + i) / n = m := by
        rw [Nat.mul_comm m n, Nat.mul_add_div hn, Nat.div_eq_of_lt hi, Nat.add_zero]
      have hm2 : (m * n + i) % n = i := by
        rw [Nat.mul_comm m n, Nat.mul_add_mod, Nat.mod_eq_of_lt hi]
      rw [hd, hm2]

theorem Mat.kron_assoc (A B C : Mat R) : (A.kron B).kron C = A.kron (B.kron C) := by
  have h1 : ∀ x q r : ℕ, x / q / r = x / (r * q) := fun x q r => by
    rw [Nat.div_div_eq_div_mul, Nat.mul_comm]
  have h2 : ∀ x q r : ℕ, x % (r * q) / q = x / q % r := fun x q r => by
    rw [Nat.mul_comm r q, Nat.mod_mul_right_div_self]
  have h3 : ∀ x q r : ℕ, x % (r * q) % q = x % q := fun x q r =>
    Nat.mod_mod_of_dvd x ⟨r, Nat.mul_comm r q⟩
  refine Mat.ext_entries (Nat.mul_assoc _ _ _) (Nat.mul_assoc _ _ _) ?_
  funext i j
  show (A.entry (i / C.rows / B.rows) (j / C.cols / B.cols) *
      B.entry (i / C.rows % B.rows) (j / C.cols % B.cols)) *
      C.entry (i % C.rows) (j % C.cols) =
    A.entry (i / (B.rows * C.rows)) (j / (B.cols * C.cols)) *
      (B.entry (i % (B.rows * C.rows) / C.rows) (j % (B.cols * C.cols) / C.cols) *
       C.entry (i % (B.rows * C.rows) % C.rows) (j % (B.cols * C.cols) % C.cols))
  rw [h1 i C.rows B.rows, h1 j C.cols B.cols, h2 i C.rows B.rows,
    h2 j C.cols B.cols, h3 i C.rows B.rows, h3 j C.cols B.cols, mul_assoc]

theorem kron_unit_right (a : Mat R) : a.kron (kron []) = a := by
  refine Mat.ext_entries (Nat.mul_one _) (Nat.mul_one _) ?_
  funext i j
  show a.entry (i / 1) (j / 1) * 1 = a.entry i j
  rw [Nat.div_one, Nat.div_one, mul_one]

theorem kron_cons (a : Mat R) (l : List (Mat R)) : kron (a :: l) = a.kron (kron l) := by
  induction l generalizing a with
  | nil => exact (kron_unit_right a).symm
  | cons b l ih =>
    show kron ((a.kron b) :: l) = a.kron (kron (b :: l))
    rw [ih (a.kron b), Mat.kron_assoc, ← ih b]

theorem kron_rows (l : List (Mat R)) : (kron l).rows = (l.map Mat.rows).prod := by
  induction l with
  | nil => rfl
  | cons a l ih => rw [kron_cons]; show a.rows * (kron l).rows = _; simp [ih]

theorem kron_cols (l : List (Mat R)) : (kron l).cols = (l.map Mat.cols).prod := by
  induction l with
  | nil => rfl
  | cons a l ih => rw [kron_cons]; show a.cols * (kron l).cols = _; simp [ih]

theorem kron_add_left (A B C : Mat R) (hr : B.rows = C.rows) (hc : B.cols = C.cols) :
    A.kron (B.add C) = (A.kron B).add (A.kron C) := by
  refine Mat.ext_entries rfl rfl ?_
  funext i j
  show A.entry (i / B.rows) (j / B.cols) *
      (B.entry (i % B.rows) (j % B.cols) + C.entry (i % B.rows) (j % B.cols)) =
    A.entry (i / B.rows) (j / B.cols) * B.entry (i % B.rows) (j % B.cols) +
      A.entry (i / C.rows) (j / C.cols) * C.entry (i % C.rows) (j % C.cols)
  rw [← hr, ← hc]; ring

theorem kron_add_right (A B C : Mat R) (hr : A.rows = B.rows) (hc : A.cols = B.cols) :
    (A.add B).kron C = (A.kron C).add (B.kron C) := by
  refine Mat.ext_entries rfl rfl ?_
  funext i j
  show (A.entry (i / C.rows) (j / C.cols) + B.entry (i / C.rows) (j / C.cols)) *
      C.entry (i % C.rows) (j % C.cols) = _
  show _ = A.entry (i / C.rows) (j / C.cols) * C.entry (i % C.rows) (j % C.cols) +
      B.entry (i / C.rows) (j / C.cols) * C.entry (i % C.rows) (j % C.cols)
  ring

theorem kron_add_mid (xs ys : List (Mat R)) (A B : Mat R)
    (hr : A.rows = B.rows) (hc : A.cols = B.cols) :
    (kron (xs ++ A :: ys)).add (kron (xs ++ B :: ys)) = kron (xs ++ (A.add B) :: ys) := by
  induction xs with
  | nil =>
    simp only [List.nil_append, kron_cons]
    exact (kron_add_right A B (kron ys) hr hc).symm
  | cons x xs ih =>
    simp only [List.cons_append, kron_cons]
    have h1 : (kron (xs ++ A :: ys)).rows = (kron (xs ++ B :: ys)).rows := by
      simp [kron_rows, hr]
    have h2 : (kron (xs ++ A :: ys)).cols = (kron (xs ++ B :: ys)).cols := by
      simp [kron_cols, hc]
    rw [← ih, kron_add_left x _ _ h1 h2]

theorem kron_merge (xs ys : List (Mat R)) (A B : Mat R) :
    kron (xs ++ A :: B :: ys) = kron (xs ++ (A.kron B) :: ys) := by
  induction xs with
  | nil =>
    simp only [List.nil_append, kron_cons]
    exact (Mat.kron_assoc A B (kron ys)).symm
  | cons x xs ih => simp only [List.cons_append, kron_cons, ih]

/-- Mixed-product property of np.kron and matrix product: needs only that
the inner dimensions of the second factors agree. -/
theorem mul_kron (A B C D : Mat R) (h : D.rows = B.cols) :
    (A.kron B).mul (C.kron D) = (A.mul C).kron (B.mul D) := by
  refine Mat.ext_entries rfl rfl ?_
  funext i j
  show rsum (fun k =>
      (A.entry (i / B.rows) (k / B.cols) * B.entry (i % B.rows) (k % B.cols)) *
      (C.entry (k / D.rows) (j / D.cols) * D.entry (k % D.rows) (j % D.cols)))
      (A.cols * B.cols) =
    rsum (fun k1 => A.entry (i / B.rows) k1 * C.entry k1 (j / D.cols)) A.cols *
      rsum (fun k2 => B.entry (i % B.rows) k2 * D.entry k2 (j % D.cols)) B.cols
  rw [h]
  rw [rsum_congr (g := fun k =>
    (fun k1 k2 => (A.entry (i / B.rows) k1 * C.entry k1 (j / D.cols)) *
      (B.entry (i % B.rows) k2 * D.entry k2 (j % D.cols))) (k / B.cols) (k % B.cols))
    (fun k _ => by ring)]
  rw [rsum_block (fun k1 k2 => (A.entry (i / B.rows) k1 * C.entry k1 (j / D.cols)) *
      (B.entry (i % B.rows) k2 * D.entry k2 (j % D.cols))) A.cols B.cols]
  rw [rsum_congr (g := fun k1 => (A.entry (i / B.rows) k1 * C.entry k1 (j / D.cols)) *
      rsum (fun k2 => B.entry (i % B.rows) k2 * D.entry k2 (j % D.cols)) B.cols)
    (fun k1 _ => rsum_mul_left _ _ _)]
  rw [rsum_mul_right]

theorem forall2_rows_eq_cols {l1 l2 : List (Mat R)}
    (h : List.Forall₂ (fun A B => B.rows = A.cols) l1 l2) :
    l2.map Mat.rows = l1.map Mat.cols := by
  induction h with
  | nil => rfl
  | cons hab _ ih => simp [hab, ih]

/-- Product of two tensor chains is the tensor chain of the slotwise
products, whenever the slotwise inner dimensions agree. -/
theorem kron_mul {l1 l2 : List (Mat R)}
    (h : List.Forall₂ (fun A B => B.rows = A.cols) l1 l2) :
    (kron l1).mul (kron l2) = kron (List.zipWith Mat.mul l1 l2) := by
  induction h with
  | nil =>
    refine Mat.ext_entries rfl rfl ?_
    funext i j
    show rsum (fun _ => (1 : R) * 1) 1 = 1
    simp [rsum]
  | @cons a b l1 l2 hab htl ih =>
    have hdim : (kron l2).rows = (kron l1).cols := by
      rw [kron_rows, kron_cols, forall2_rows_eq_cols htl]
    rw [kron_cons, kron_cons, mul_kron a (kron l1) b (kron l2) hdim, ih,
      List.zipWith_cons_cons, kron_cons]

theorem forall2_all2 {l1 l2 : List (Mat R)} (h1 : ∀ A ∈ l1, A.cols = 2)
    (h2 : ∀ B ∈ l2, B.rows = 2) (hlen : l1.length = l2.length) :
    List.Forall₂ (fun A B => B.rows = A.cols) l1 l2 := by
  induction l1 generalizing l2 with
  | nil =>
    cases l2 with
    | nil => exact List.Forall₂.nil
    | cons b l2 => simp at hlen
  | cons a l1 ih =>
    cases l2 with
    | nil => simp at hlen
    | cons b l2 =>
      refine List.Forall₂.cons ?_ (ih (fun A hA => h1 A (by simp [hA]))
        (fun B hB => h2 B (by simp [hB])) (by simpa using hlen))
      rw [h1 a (by simp), h2 b (by simp)]

theorem mul_add_right (A B C : Mat R) :
    A.mul (B.add C) = (A.mul B).add (A.mul C) := by
  refine Mat.ext_entries rfl rfl ?_
  funext i j
  show rsum (fun k => A.entry i k * (B.entry k j + C.entry k j)) A.cols = _
  rw [rsum_congr (g := fun k => A.entry i k * B.entry k j + A.entry i k * C.entry k j)
    (fun k _ => by ring), rsum_add_distrib]
  rfl

theorem add_mul_left (A B C : Mat R) (hc : A.cols = B.cols) :
    (A.add B).mul C = (A.mul C).add (B.mul C) := by
  refine Mat.ext_entries rfl rfl ?_
  funext i j
  show rsum (fun k => (A.entry i k + B.entry i k) * C.entry k j) A.cols = _
  rw [rsum_congr (g := fun k => A.entry i k * C.entry k j + B.entry i k * C.entry k j)
    (fun k _ => by ring), rsum_add_distrib]
  show _ = rsum (fun k => A.entry i k * C.entry k j) A.cols +
    rsum (fun k => B.entry i k * C.entry k j) B.cols
  rw [hc]

section StarLemmas

variable [StarRing R]

theorem dagger_add (A B : Mat R) : (A.add B).dagger = (A.dagger).add (B.dagger) := by
  refine Mat.ext_entries rfl rfl ?_
  funext i j
  exact star_add _ _

theorem dagger_kron_bin (A B : Mat R) : (A.kron B).dagger = (A.dagger).kron (B.dagger) := by
  refine Mat.ext_entries rfl rfl ?_
  funext i j
  exact star_mul' _ _

theorem dagger_unit : (kron ([] : List (Mat R))).dagger = kron [] := by
  refine Mat.ext_entries rfl rfl ?_
  funext i j
  exact star_one R

theorem dagger_kron (l : List (Mat R)) : (kron l).dagger = kron (l.map Mat.dagger) := by
  induction l with
  | nil => exact dagger_unit
  | cons a l ih => rw [kron_cons, dagger_kron_bin, ih, List.map_cons, kron_cons]

end StarLemmas

theorem isZero_kron_left {Z : Mat R} (h : Z.IsZero) (B : Mat R) : (Z.kron B).IsZero :=
  fun i j => by show Z.entry _ _ * _ = 0; rw [h, zero_mul]

theorem isZero_kron_right {Z : Mat R} (h : Z.IsZero) (A : Mat R) : (A.kron Z).IsZero :=
  fun i j => by show _ * Z.entry _ _ = 0; rw [h, mul_zero]

theorem isZero_kron_mid (xs ys : List (Mat R)) {Z : Mat R} (h : Z.IsZero) :
    (kron (xs ++ Z :: ys)).IsZero := by
  induction xs with
  | nil => rw [List.nil_append, kron_cons]; exact isZero_kron_left h _
  | cons x xs ih => rw [List.cons_append, kron_cons]; exact isZero_kron_right ih x

theorem add_isZero_right (A : Mat R) {Z : Mat R} (h : Z.IsZero) : A.add Z = A := by
  refine Mat.ext_entries rfl rfl ?_
  funext i j
  show A.entry i j + Z.entry i j = A.entry i j
  rw [h, add_zero]

theorem add_isZero_left {Z : Mat R} (h : Z.IsZero) (A : Mat R)
    (hr : Z.rows = A.rows) (hc : Z.cols = A.cols) : Z.add A = A := by
  refine Mat.ext_entries hr hc ?_
  funext i j
  show Z.entry i j + A.entry i j = A.entry i j
  rw [h, zero_add]

theorem kron_I_idMat (m : ℕ) (hm : 0 < m) :
    (I : Mat R).kron (idMat m) = idMat (2 * m) := by
  refine Mat.ext_entries rfl rfl ?_
  funext i j
  show (if i / m = j / m ∧ i / m < 2 then (1 : R) else 0) *
      (if i % m = j % m ∧ i % m < m then (1 : R) else 0) =
    if i = j ∧ i < 2 * m then 1 else 0
  have hdm : i / m = j / m → i % m = j % m → i = j := by
    intro h1 h2
    calc i = m * (i / m) + i % m := (Nat.div_add_mod i m).symm
    _ = m * (j / m) + j % m := by rw [h1, h2]
    _ = j := Nat.div_add_mod j m
  have hlt : i / m < 2 ↔ i < 2 * m := Nat.div_lt_iff_lt_mul hm
  have hmod : i % m < m := Nat.mod_lt i hm
  by_cases hij : i = j ∧ i < 2 * m
  · rw [if_pos ⟨by rw [hij.1], hlt.mpr hij.2⟩, if_pos ⟨by rw [hij.1], hmod⟩,
      if_pos hij, one_mul]
  · rw [if_neg hij]
    by_cases h1 : i / m = j / m ∧ i / m < 2
    · by_cases h2 : i % m = j % m ∧ i % m < m
      · exact absurd ⟨hdm h1.1 h2.1, hlt.mp h1.2⟩ hij
      · rw [if_neg h2, mul_zero]
    · rw [if_neg h1, zero_mul]

theorem kron_replicate_I (n : ℕ) :
    kron (List.replicate (n + 1) I) = (idMat (2 ^ (n + 1)) : Mat R) := by
  induction n with
  | zero => rfl
  | succ n ih =>
    rw [List.replicate_succ, kron_cons, ih, kron_I_idMat _ (by positivity)]
    have h : 2 * 2 ^ (n + 1) = 2 ^ (n + 1 + 1) := by ring
    rw [h]

theorem P0_add_P1 : (P0 : Mat R).add P1 = I := by
  refine Mat.ext_entries rfl rfl ?_
  funext i j
  show (if i = 0 ∧ (0 : ℕ) = 0 then (1 : R) else 0) * (if j = 0 ∧ (0 : ℕ) = 0 then 1 else 0) +
      (if i = 1 ∧ (0 : ℕ) = 0 then (1 : R) else 0) * (if j = 1 ∧ (0 : ℕ) = 0 then 1 else 0) =
    if i = j ∧ i < 2 then 1 else 0
  split_ifs <;> first | ring1 | (exfalso; omega) | simp_all

section StarConcrete

variable [StarRing R]

theorem dagger_I : (I : Mat R).dagger = I := by
  refine Mat.ext_entries rfl rfl ?_
  funext i j
  show star (if j = i ∧ j < 2 then (1 : R) else 0) = if i = j ∧ i < 2 then 1 else 0
  split_ifs <;> simp only [star_one, star_zero] <;> first | rfl | (exfalso; omega)

theorem I_mul_dagger_I : (I : Mat R).mul (Mat.dagger I) = I := by
  refine Mat.ext_entries rfl rfl ?_
  funext i j
  show rsum (fun k => I.entry i k * star (I.entry j k)) 2 = I.entry i j
  rw [rsum_two]
  show (if i = 0 ∧ i < 2 then (1 : R) else 0) * star (if j = 0 ∧ j < 2 then (1 : R) else 0) +
      (if i = 1 ∧ i < 2 then (1 : R) else 0) * star (if j = 1 ∧ j < 2 then (1 : R) else 0) =
    if i = j ∧ i < 2 then 1 else 0
  split_ifs <;> simp only [star_one, star_zero] <;> first | ring1 | (exfalso; omega) | simp_all

theorem P0_mul_dagger_P0 : (P0 : Mat R).mul (Mat.dagger P0) = P0 := by
  refine Mat.ext_entries rfl rfl ?_
  funext i j
  show rsum (fun k => P0.entry i k * star (P0.entry j k)) 2 = P0.entry i j
  rw [rsum_two]
  show ((if i = 0 ∧ (0 : ℕ) = 0 then (1 : R) else 0) * (if (0 : ℕ) = 0 ∧ (0 : ℕ) = 0 then 1 else 0)) *
      star ((if j = 0 ∧ (0 : ℕ) = 0 then (1 : R) else 0) * (if (0 : ℕ) = 0 ∧ (0 : ℕ) = 0 then 1 else 0)) +
      ((if i = 0 ∧ (0 : ℕ) = 0 then (1 : R) else 0) * (if (1 : ℕ) = 0 ∧ (0 : ℕ) = 0 then 1 else 0)) *
      star ((if j = 0 ∧ (0 : ℕ) = 0 then (1 : R) else 0) * (if (1 : ℕ) = 0 ∧ (0 : ℕ) = 0 then 1 else 0)) =
    (if i = 0 ∧ (0 : ℕ) = 0 then (1 : R) else 0) * (if j = 0 ∧ (0 : ℕ) = 0 then 1 else 0)
  split_ifs <;> simp only [star_one, star_zero, star_mul', mul_one, mul_zero, one_mul, zero_mul] <;>
    first | ring1 | (exfalso; omega) | simp_all

theorem P1_mul_dagger_P1 : (P1 : Mat R).mul (Mat.dagger P1) = P1 := by
  refine Mat.ext_entries rfl rfl ?_
  funext i j
  show rsum (fun k => P1.entry i k * star (P1.entry j k)) 2 = P1.entry i j
  rw [rsum_two]
  show ((if i = 1 ∧ (0 : ℕ) = 0 then (1 : R) else 0) * (if (0 : ℕ) = 1 ∧ (0 : ℕ) = 0 then 1 else 0)) *
      star ((if j = 1 ∧ (0 : ℕ) = 0 then (1 : R) else 0) * (if (0 : ℕ) = 1 ∧ (0 : ℕ) = 0 then 1 else 0)) +
      ((if i = 1 ∧ (0 : ℕ) = 0 then (1 : R) else 0) * (if (1 : ℕ) = 1 ∧ (0 : ℕ) = 0 then 1 else 0)) *
      star ((if j = 1 ∧ (0 : ℕ) = 0 then (1 : R) else 0) * (if (1 : ℕ) = 1 ∧ (0 : ℕ) = 0 then 1 else 0)) =
    (if i = 1 ∧ (0 : ℕ) = 0 then (1 : R) else 0) * (if j = 1 ∧ (0 : ℕ) = 0 then 1 else 0)
  split_ifs <;> simp only [star_one, star_zero, star_mul', mul_one, mul_zero, one_mul, zero_mul] <;>
    first | ring1 | (exfalso; omega) | simp_all

theorem P0_mul_dagger_P1_isZero : ((P0 : Mat R).mul (Mat.dagger P1)).IsZero := by
  intro i j
  show rsum (fun k => P0.entry i k * star (P1.entry j k)) 2 = 0
  rw [rsum_two]
  show ((if i = 0 ∧ (0 : ℕ) = 0 then (1 : R) else 0) * (if (0 : ℕ) = 0 ∧ (0 : ℕ) = 0 then 1 else 0)) *
      star ((if j = 1 ∧ (0 : ℕ) = 0 then (1 : R) else 0) * (if (0 : ℕ) = 1 ∧ (0 : ℕ) = 0 then 1 else 0)) +
      ((if i = 0 ∧ (0 : ℕ) = 0 then (1 : R) else 0) * (if (1 : ℕ) = 0 ∧ (0 : ℕ) = 0 then 1 else 0)) *
      star ((if j = 1 ∧ (0 : ℕ) = 0 then (1 : R) else 0) * (if (1 : ℕ) = 1 ∧ (0 : ℕ) = 0 then 1 else 0)) = 0
  split_ifs <;> simp only [star_one, star_zero, star_mul', mul_one, mul_zero, one_mul, zero_mul] <;>
    first | ring1 | (exfalso; omega) | simp_all

theorem P1_mul_dagger_P0_isZero : ((P1 : Mat R).mul (Mat.dagger P0)).IsZero := by
  intro i j
  show rsum (fun k => P1.entry i k * star (P0.entry j k)) 2 = 0
  rw [rsum_two]
  show ((if i = 1 ∧ (0 : ℕ) = 0 then (1 : R) else 0) * (if (0 : ℕ) = 1 ∧ (0 : ℕ) = 0 then 1 else 0)) *
      star ((if j = 0 ∧ (0 : ℕ) = 0 then (1 : R) else 0) * (if (0 : ℕ) = 0 ∧ (0 : ℕ) = 0 then 1 else 0)) +
      ((if i = 1 ∧ (0 : ℕ) = 0 then (1 : R) else 0) * (if (1 : ℕ) = 1 ∧ (0 : ℕ) = 0 then 1 else 0)) *
      star ((if j = 0 ∧ (0 : ℕ) = 0 then (1 : R) else 0) * (if (1 : ℕ) = 0 ∧ (0 : ℕ) = 0 then 1 else 0)) = 0
  split_ifs <;> simp only [star_one, star_zero, star_mul', mul_one, mul_zero, one_mul, zero_mul] <;>
    first | ring1 | (exfalso; omega) | simp_all

theorem X_mul_dagger_X : (X : Mat R).mul (Mat.dagger X) = I := by
  refine Mat.ext_entries rfl rfl ?_
  funext i j
  show rsum (fun k => X.entry i k * star (X.entry j k)) 2 = I.entry i j
  rw [rsum_two]
  show (if (i = 0 ∧ (0 : ℕ) = 1) ∨ (i = 1 ∧ (0 : ℕ) = 0) then (1 : R) else 0) *
      star (if (j = 0 ∧ (0 : ℕ) = 1) ∨ (j = 1 ∧ (0 : ℕ) = 0) then (1 : R) else 0) +
      (if (i = 0 ∧ (1 : ℕ) = 1) ∨ (i = 1 ∧ (1 : ℕ) = 0) then (1 : R) else 0) *
      star (if (j = 0 ∧ (1 : ℕ) = 1) ∨ (j = 1 ∧ (1 : ℕ) = 0) then (1 : R) else 0) =
    if i = j ∧ i < 2 then 1 else 0
  split_ifs <;> simp only [star_one, star_zero] <;> first | ring1 | (exfalso; omega) | simp_all

end StarConcrete

/-- The fixed 4 × 4 CNOT matrix is exactly the projector decomposition
|0⟩⟨0| ⊗ I + |1⟩⟨1| ⊗ X. -/
theorem cnot_decomp : (cnot : Mat R) = ((P0 : Mat R).kron I).add (P1.kron X) := by
  refine Mat.ext_entries rfl rfl ?_
  funext i j
  show (if (i = 0 ∧ j = 0) ∨ (i = 1 ∧ j = 1) ∨ (i = 2 ∧ j = 3) ∨ (i = 3 ∧ j = 2)
      then (1 : R) else 0) =
    ((if i / 2 = 0 ∧ (0 : ℕ) = 0 then (1 : R) else 0) * (if j / 2 = 0 ∧ (0 : ℕ) = 0 then 1 else 0)) *
      (if i % 2 = j % 2 ∧ i % 2 < 2 then 1 else 0) +
    ((if i / 2 = 1 ∧ (0 : ℕ) = 0 then (1 : R) else 0) * (if j / 2 = 1 ∧ (0 : ℕ) = 0 then 1 else 0)) *
      (if (i % 2 = 0 ∧ j % 2 = 1) ∨ (i % 2 = 1 ∧ j % 2 = 0) then 1 else 0)
  split_ifs <;> first | ring1 | (exfalso; omega) | simp_all

theorem range_map_single {α : Type} (A B : α) {c n : ℕ} (h : c < n) :
    (List.range n).map (fun p => if p = c then A else B) =
      List.replicate c B ++ A :: List.replicate (n - c - 1) B := by
  induction n with
  | zero => exact absurd h (Nat.not_lt_zero c)
  | succ n ih =>
    rcases Nat.lt_or_ge c n with hc | hc
    · rw [List.range_succ, List.map_append, ih hc]
      have hne : n ≠ c := by omega
      rw [show n + 1 - c - 1 = (n - c - 1) + 1 from by omega, List.replicate_succ']
      simp [hne, List.append_assoc]
    · have hceq : c = n := by omega
      subst hceq
      rw [List.range_succ, List.map_append]
      have hrest : (List.range c).map (fun p => if p = c then A else B) =
          List.replicate c B := by
        have hmem : ∀ p ∈ List.range c, (if p = c then A else B) = B := by
          intro p hp
          rw [List.mem_range] at hp
          rw [if_neg (by omega)]
        rw [List.map_congr_left hmem]
        have : (List.range c).map (fun _ => B) =
            List.replicate ((List.range c).map (fun _ => B)).length B :=
          List.eq_replicate_of_mem (by
            intro b hb
            rcases List.mem_map.mp hb with ⟨p, _, hp⟩
            exact hp.symm)
        rw [this, List.length_map, List.length_range]
      rw [hrest]
      simp

theorem range_map_pair {α : Type} (A B C : α) {u v n : ℕ} (hu : u < v) (hv : v < n) :
    (List.range n).map (fun p => if p = u then A else if p = v then B else C) =
      List.replicate u C ++ A :: List.replicate (v - u - 1) C ++
        B :: List.replicate (n - v - 1) C := by
  induction n with
  | zero => exact absurd hv (Nat.not_lt_zero v)
  | succ n ih =>
    rcases Nat.lt_or_ge v n with hvn | hvn
    · rw [List.range_succ, List.map_append, ih hvn]
      have h1 : n ≠ u := by omega
      have h2 : n ≠ v := by omega
      rw [show n + 1 - v - 1 = (n - v - 1) + 1 from by omega, List.replicate_succ']
      simp [h1, h2, List.append_assoc]
    · have hveq : v = n := by omega
      subst hveq
      rw [List.range_succ, List.map_append]
      have heq : (List.range v).map (fun p => if p = u then A else if p = v then B else C) =
          (List.range v).map (fun p => if p = u then A else C) := by
        apply List.map_congr_left
        intro p hp
        rw [List.mem_range] at hp
        by_cases hpu : p = u
        · simp [hpu]
        · simp [hpu, show p ≠ v from by omega]
      rw [heq, range_map_single A C hu,
        show v + 1 - v - 1 = 0 from by omega]
      simp [show ¬ v = u from by omega, List.append_assoc]

theorem replicate_sandwich {α : Type} (x : α) (a b m : ℕ) (h : a + b + 1 = m) :
    List.replicate a x ++ x :: List.replicate b x = List.replicate m x := by
  rw [show m = a + (b + 1) from by omega, List.replicate_add, List.replicate_succ]

theorem kron_rows_two {l : List (Mat R)} (h : ∀ A ∈ l, A.rows = 2) :
    (kron l).rows = 2 ^ l.length := by
  rw [kron_rows]
  have he : l.map Mat.rows = List.replicate (l.map Mat.rows).length 2 :=
    List.eq_replicate_of_mem (by
      intro b hb
      rcases List.mem_map.mp hb with ⟨A, hA, rfl⟩
      exact h A hA)
  rw [he, List.prod_replicate, List.length_map]

theorem kron_cols_two {l : List (Mat R)} (h : ∀ A ∈ l, A.cols = 2) :
    (kron l).cols = 2 ^ l.length := by
  rw [kron_cols]
  have he : l.map Mat.cols = List.replicate (l.map Mat.cols).length 2 :=
    List.eq_replicate_of_mem (by
      intro b hb
      rcases List.mem_map.mp hb with ⟨A, hA, rfl⟩
      exact h A hA)
  rw [he, List.prod_replicate, List.length_map]

/-- The spec's description of `controlled`: the sum of two tensor-product
terms, each assembled by walking the qubit positions in ascending order and
placing the projector |0⟩⟨0| (first term), or the projector |1⟩⟨1| and the
gate (second term), with identity at every other position. -/
def controlledSpec (gate : Mat R) (control_qubit target_qubit num_qubits : ℕ) : Mat R :=
  Mat.add
    (kron ((List.range num_qubits).map fun p =>
      if p = control_qubit then P0 else I))
    (kron ((List.range num_qubits).map fun p =>
      if p = control_qubit then P1 else if p = target_qubit then gate else I))

/-- C1: for every register size n ≥ 1, 2×2 gate G and distinct in-range
control and target, `control_gate` returns exactly the spec's two-term
projector decomposition (projector |0⟩⟨0| at the control with identity
elsewhere, plus |1⟩⟨1| at the control, G at the target and identity
elsewhere), a 2^n × 2^n operator, in both relative orders of control and
target. -/
theorem claim_C1 (G : Mat K) (c t n : ℕ) (hGr : G.rows = 2) (hGc : G.cols = 2)
    (hc : c < n) (ht : t < n) (hne : c ≠ t) :
    control_gate G c t n = Except.ok (controlledSpec G c t n) ∧
      (controlledSpec G c t n).rows = 2 ^ n ∧
      (controlledSpec G c t n).cols = 2 ^ n := by
  refine ⟨?_, ?_, ?_⟩
  · simp only [control_gate, controlledSpec, if_neg hne,
      if_neg (show ¬(n < c ∨ n < t) from by omega)]
    rcases Nat.lt_or_ge c t with hct | hct
    · rw [if_pos hct]
      congr 1
      rw [range_map_single P0 I hc, range_map_pair P1 G I hct ht]
      simp [add_gate, List.append_assoc, Nat.sub_sub]
    · rw [if_neg (show ¬ c < t from by omega)]
      congr 1
      rw [range_map_single P0 I hc]
      have hfun : ∀ p ∈ List.range n,
          (if p = c then (P1 : Mat K) else if p = t then G else I) =
          (if p = t then G else if p = c then P1 else I) := by
        intro p _
        by_cases h1 : p = c
        · simp [h1, hne]
        · simp [h1]
      rw [List.map_congr_left hfun, range_map_pair G P1 I (show t < c from by omega) hc]
      simp [add_gate, List.append_assoc, Nat.sub_sub]
  · show (kron ((List.range n).map fun p => if p = c then (P0 : Mat K) else I)).rows = _
    rw [kron_rows_two (by
      intro A hA
      rcases List.mem_map.mp hA with ⟨p, _, rfl⟩
      by_cases h1 : p = c <;> simp [h1, P0, Mat.outer, zero, I, idMat])]
    rw [List.length_map, List.length_range]
  · show (kron ((List.range n).map fun p => if p = c then (P0 : Mat K) else I)).cols = _
    rw [kron_cols_two (by
      intro A hA
      rcases List.mem_map.mp hA with ⟨p, _, rfl⟩
      by_cases h1 : p = c <;> simp [h1, P0, Mat.outer, zero, I, idMat])]
    rw [List.length_map, List.length_range]

/-- C1 witness: the controlled-X on a 2-qubit register at control 0,
target 1. -/
theorem claim_C1_witness :
    control_gate (X : Mat K) 0 1 2 = Except.ok (controlledSpec X 0 1 2) ∧
      (controlledSpec (X : Mat K) 0 1 2).rows = 2 ^ 2 ∧
      (controlledSpec (X : Mat K) 0 1 2).cols = 2 ^ 2 :=
  claim_C1 X 0 1 2 rfl rfl (by decide) (by decide) (by decide)

/-- C9: the source `kron` is the left fold of np.kron — it is the identity
on a one-element list, and folding three operators associates as
`kron([kron([A,B]), C])`. -/
theorem claim_C9 (A B C : Mat K) :
    kron [A] = A ∧ kron [A, B, C] = kron [kron [A, B], C] :=
  ⟨rfl, rfl⟩

/-- C5: `control_gate` and `cnot_nonadj` fail (raising the source's
ValueError, the spec's InvalidQubitError) exactly when control equals
target or an index exceeds the declared inclusive bound `num_qubits`; on
such calls only an error is returned, never a matrix. -/
theorem claim_C5 (G : Mat K) (c t n : ℕ) :
    ((∃ msg, control_gate G c t n = Except.error msg) ↔ (c = t ∨ n < c ∨ n < t)) ∧
    ((∃ msg, (cnot_nonadj c t n : Except String (Mat K)) = Except.error msg) ↔
      (c = t ∨ n < c ∨ n < t)) := by
  constructor
  · constructor
    · rintro ⟨msg, hmsg⟩
      by_contra hcon
      push_neg at hcon
      obtain ⟨h1, h2⟩ := hcon
      simp only [control_gate, if_neg h1, if_neg (show ¬(n < c ∨ n < t) from by omega)]
        at hmsg
      split_ifs at hmsg <;> exact Except.noConfusion hmsg
    · intro hor
      by_cases h1 : c = t
      · exact ⟨"Control and Target qubits must be different.",
          by simp [control_gate, h1]⟩
      · have h2 : n < c ∨ n < t := by tauto
        exact ⟨"Error", by simp [control_gate, h1, h2]⟩
  · constructor
    · rintro ⟨msg, hmsg⟩
      by_contra hcon
      push_neg at hcon
      obtain ⟨h1, h2⟩ := hcon
      simp only [cnot_nonadj, if_neg h1, if_neg (show ¬(n < c ∨ n < t) from by omega)]
        at hmsg
      split_ifs at hmsg <;> exact Except.noConfusion hmsg
    · intro hor
      by_cases h1 : c = t
      · exact ⟨"Control and Target qubits must be different.",
          by simp [cnot_nonadj, h1]⟩
      · have h2 : n < c ∨ n < t := by tauto
        exact ⟨"Error", by simp [cnot_nonadj, h1, h2]⟩

set_option maxHeartbeats 1000000 in
/-- C3: on adjacent qubits the fast path `cnot_adj(i, i+1, n)` and the
general projector path `cnot_nonadj(i, i+1, n)` return the same matrix. -/
theorem claim_C3 (i n : ℕ) (h : i + 2 ≤ n) :
    (cnot_adj i (i + 1) n : Except String (Mat K)) = cnot_nonadj i (i + 1) n := by
  simp only [cnot_adj, cnot_nonadj,
    if_neg (show ¬ i + 1 ≠ i + 1 from by omega),
    if_neg (show ¬ i = i + 1 from by omega),
    if_neg (show ¬(n < i ∨ n < i + 1) from by omega),
    if_pos (show i < i + 1 from by omega)]
  congr 1
  have e1 : i + 1 - i - 1 = 0 := by omega
  rw [e1]
  have e2 : n - i - 1 = (n - i - 2) + 1 := by omega
  rw [e2, List.replicate_succ]
  have e3 : n - (i + 1 + 1) = n - i - 2 := by omega
  rw [e3]
  have e4 : n - (i + 1) - 1 = n - i - 2 := by omega
  rw [e4]
  simp only [List.replicate_zero, List.append_assoc, List.singleton_append,
    List.cons_append, List.nil_append]
  rw [kron_merge (List.replicate i I) (List.replicate (n - i - 2) I) P0 I,
    kron_merge (List.replicate i I) (List.replicate (n - i - 2) I) P1 X,
    kron_add_mid (List.replicate i I) (List.replicate (n - i - 2) I)
      ((P0 : Mat K).kron I) (P1.kron X) rfl rfl, ← cnot_decomp]

/-- C3 witness: the 2-qubit adjacent case i = 0, n = 2. -/
theorem claim_C3_witness :
    (cnot_adj 0 1 2 : Except String (Mat K)) = cnot_nonadj 0 1 2 :=
  claim_C3 0 2 (by decide)

/-- C8: controlling the 2×2 identity gate gives the full 2^n × 2^n identity
operator, for every valid control/target pair — the two projector terms sum
to the identity by the completeness relation. -/
theorem claim_C8 (c t n : ℕ) (hc : c < n) (ht : t < n) (hne : c ≠ t) :
    control_gate (I : Mat K) c t n = Except.ok (idMat (2 ^ n)) := by
  obtain ⟨m, rfl⟩ : ∃ m, n = m + 1 := ⟨n - 1, by omega⟩
  simp only [control_gate, if_neg hne,
    if_neg (show ¬(m + 1 < c ∨ m + 1 < t) from by omega)]
  rcases Nat.lt_or_ge c t with hct | hct
  · rw [if_pos hct]
    congr 1
    simp only [add_gate, List.append_assoc, List.singleton_append, List.cons_append, List.nil_append]
    rw [replicate_sandwich (I : Mat K) (t - c - 1) (m + 1 - t - 1) (m + 1 - (c + 1))
      (by omega)]
    rw [kron_add_mid (List.replicate c I) (List.replicate (m + 1 - (c + 1)) I)
        (P0 : Mat K) P1 rfl rfl, P0_add_P1,
      replicate_sandwich (I : Mat K) c (m + 1 - (c + 1)) (m + 1) (by omega),
      kron_replicate_I]
  · rw [if_neg (show ¬ c < t from by omega)]
    congr 1
    simp only [add_gate, List.append_assoc, List.singleton_append, List.cons_append, List.nil_append]
    rw [show List.replicate t (I : Mat K) ++ I :: (List.replicate (c - t - 1) I ++
        P1 :: List.replicate (m + 1 - c - 1) I) =
        List.replicate c I ++ P1 :: List.replicate (m + 1 - c - 1) I from by
      rw [← List.cons_append, ← List.append_assoc,
        replicate_sandwich (I : Mat K) t (c - t - 1) c (by omega)]]
    rw [show m + 1 - c - 1 = m + 1 - (c + 1) from by omega]
    rw [kron_add_mid (List.replicate c I) (List.replicate (m + 1 - (c + 1)) I)
        (P0 : Mat K) P1 rfl rfl, P0_add_P1,
      replicate_sandwich (I : Mat K) c (m + 1 - (c + 1)) (m + 1) (by omega),
      kron_replicate_I]

/-- C8 witness: control 0, target 1 on a 2-qubit register. -/
theorem claim_C8_witness :
    control_gate (I : Mat K) 0 1 2 = Except.ok (idMat (2 ^ 2)) :=
  claim_C8 0 1 2 (by decide) (by decide) (by decide)

/-- C10: the inclusive bound admits `control_qubit = num_qubits`; the call
raises nothing and, through the collapsed negative padding, silently
returns a 2^(n+1) × 2^(n+1) matrix instead of an operator on the declared
2^n-dimensional register. -/
theorem claim_C10 (G : Mat K) (t n : ℕ) (hn : 1 ≤ n) (ht : t < n)
    (hGr : G.rows = 2) (hGc : G.cols = 2) :
    ∃ M, control_gate G n t n = Except.ok M ∧
      M.rows = 2 ^ (n + 1) ∧ M.cols = 2 ^ (n + 1) ∧ M.rows ≠ 2 ^ n := by
  simp only [control_gate, if_neg (show ¬ n = t from by omega),
    if_neg (show ¬(n < n ∨ n < t) from by omega),
    if_neg (show ¬ n < t from by omega)]
  refine ⟨_, rfl, ?_, ?_, ?_⟩
  · show (kron (List.replicate n I ++ [P0] ++
      List.replicate (n - (n + 1)) I)).rows = _
    rw [kron_rows_two (by
      intro A hA
      simp only [List.mem_append, List.mem_replicate, List.mem_singleton] at hA
      rcases hA with (⟨-, rfl⟩ | rfl) | ⟨-, rfl⟩ <;> rfl)]
    congr 1
    simp [show n - (n + 1) = 0 from by omega]
  · show (kron (List.replicate n I ++ [P0] ++
      List.replicate (n - (n + 1)) I)).cols = _
    rw [kron_cols_two (by
      intro A hA
      simp only [List.mem_append, List.mem_replicate, List.mem_singleton] at hA
      rcases hA with (⟨-, rfl⟩ | rfl) | ⟨-, rfl⟩ <;> rfl)]
    congr 1
    simp [show n - (n + 1) = 0 from by omega]
  · show (kron (List.replicate n I ++ [P0] ++
      List.replicate (n - (n + 1)) I)).rows ≠ _
    rw [kron_rows_two (by
      intro A hA
      simp only [List.mem_append, List.mem_replicate, List.mem_singleton] at hA
      rcases hA with (⟨-, rfl⟩ | rfl) | ⟨-, rfl⟩ <;> rfl)]
    have hlen : (List.replicate n (I : Mat K) ++ [P0] ++
        List.replicate (n - (n + 1)) I).length = n + 1 := by
      simp [show n - (n + 1) = 0 from by omega]
    rw [hlen]
    have h1 : 2 ^ (n + 1) = 2 * 2 ^ n := by ring
    have h2 : 0 < 2 ^ n := by positivity
    omega

/-- C10 witness: `control_gate(X, 1, 0, 1)` succeeds and returns a 4 × 4
matrix, twice the declared one-qubit dimension. -/
theorem claim_C10_witness :
    okE (control_gate (X : Mat K) 1 0 1) = true ∧
      (exGet (control_gate (X : Mat K) 1 0 1)).rows = 2 ^ 2 := by
  obtain ⟨M, hM, hr, -, -⟩ := claim_C10 X 0 1 (by decide) (by decide) rfl rfl
  rw [hM]
  exact ⟨rfl, hr⟩

/-- C6: whenever `TOFFOLI`'s own validation passes (target distinct from
both controls, all indices in range), exactly one of the three ordering
branches over the sorted controls applies, and the function returns a
defined matrix — the fall-through branch with no operator is unreachable. -/
theorem claim_C6 (c1 c2 t n : ℕ) (h1 : c1 ≠ t) (h2 : c2 ≠ t)
    (hr1 : c1 < n) (hr2 : c2 < n) (hrt : t < n) :
    (∃ M, (TOFFOLI c1 c2 t n : Except String (Mat K)) = Except.ok M) ∧
      ((max c1 c2 < t ∧ ¬(min c1 c2 < t ∧ t < max c1 c2) ∧ ¬ t < min c1 c2) ∨
       (¬ max c1 c2 < t ∧ (min c1 c2 < t ∧ t < max c1 c2) ∧ ¬ t < min c1 c2) ∨
       (¬ max c1 c2 < t ∧ ¬(min c1 c2 < t ∧ t < max c1 c2) ∧ t < min c1 c2)) := by
  constructor
  · simp only [TOFFOLI, if_neg (show ¬(c1 = t ∨ c2 = t) from by tauto),
      if_neg (show ¬(¬ c1 < n ∨ ¬ t < n ∨ ¬ c2 < n) from by tauto)]
    by_cases hb1 : max c1 c2 < t
    · exact ⟨_, by rw [if_pos hb1]⟩
    · by_cases hb2 : min c1 c2 < t ∧ t < max c1 c2
      · exact ⟨_, by rw [if_neg hb1, if_pos hb2]⟩
      · have hb3 : t < min c1 c2 := by omega
        exact ⟨_, by rw [if_neg hb1, if_neg hb2, if_pos hb3]⟩
  · omega

/-- C6 witness: controls 0 and 1, target 2 on three qubits. -/
theorem claim_C6_witness :
    okE (TOFFOLI 0 1 2 3 : Except String (Mat K)) = true := by
  obtain ⟨⟨M, hM⟩, -⟩ :=
    claim_C6 0 1 2 3 (by decide) (by decide) (by decide) (by decide) (by decide)
  rw [hM]
  rfl

set_option maxRecDepth 4000 in
unseal Rat.add Rat.mul Rat.sub Rat.inv in
/-- C2: the TOFFOLI operator with controls 0, 1 and target 2 on three
qubits maps the computational-basis vector |1,1,0⟩ to |1,1,1⟩ and leaves
|1,0,0⟩ (one control off) fixed. -/
theorem claim_C2 :
    okAnd ((TOFFOLI 0 1 2 3 : Except String (Mat K)).map
      (fun O => O.mul (kron [one, one, zero]))) (kron [one, one, one]) ∧
    okAnd ((TOFFOLI 0 1 2 3 : Except String (Mat K)).map
      (fun O => O.mul (kron [one, zero, zero]))) (kron [one, zero, zero]) := by
  decide

/-- The 3-qubit GHZ amplitude vector the spec promises: 1/√2 at indices 0
and 7, zero elsewhere. -/
def ghz3 : Mat K :=
  ⟨8, 1, fun i j => if (i = 0 ∨ i = 7) ∧ j = 0 then invSqrt2 else 0⟩

set_option maxRecDepth 4000 in
unseal Rat.add Rat.mul Rat.sub Rat.inv in
/-- C7: `generate_ghz_state(3)` returns the 8-amplitude vector with 1/√2 at
indices 0 (|000⟩) and 7 (|111⟩) and 0 elsewhere. -/
theorem claim_C7 : okAnd (generate_ghz_state 3) ghz3 := by
  decide

/-- One 2×2 operator at each of two marked positions in an n-qubit padding
chain (the shape of each term of the two-qubit controlled decomposition). -/
def pad2 (a b c : ℕ) (U V : Mat R) : Mat R :=
  kron (List.replicate a I ++ U :: (List.replicate b I ++ V :: List.replicate c I))

/-- One 2×2 operator at each of three marked positions in an n-qubit padding
chain (the shape of each term of the Toffoli decomposition). -/
def pad3 (a b c d : ℕ) (U V W : Mat R) : Mat R :=
  kron (List.replicate a I ++ U :: (List.replicate b I ++ V ::
    (List.replicate c I ++ W :: List.replicate d I)))

theorem I_mul_I : (I : Mat R).mul I = I := by
  refine Mat.ext_entries rfl rfl ?_
  funext i j
  show rsum (fun k => I.entry i k * I.entry k j) 2 = I.entry i j
  rw [rsum_two]
  show (if i = 0 ∧ i < 2 then (1 : R) else 0) * (if (0 : ℕ) = j ∧ (0 : ℕ) < 2 then 1 else 0) +
      (if i = 1 ∧ i < 2 then (1 : R) else 0) * (if (1 : ℕ) = j ∧ (1 : ℕ) < 2 then 1 else 0) =
    if i = j ∧ i < 2 then 1 else 0
  split_ifs <;> first | ring1 | (exfalso; omega) | simp_all

theorem mat_add_assoc (A B C : Mat R) : (A.add B).add C = A.add (B.add C) := by
  refine Mat.ext_entries rfl rfl ?_
  funext i j
  exact add_assoc _ _ _

theorem pad2_rows (a b c : ℕ) {U V : Mat R} (hU : U.rows = 2) (hV : V.rows = 2) :
    (pad2 a b c U V).rows = 2 ^ (a + b + c + 2) := by
  simp only [pad2]
  rw [kron_rows_two (by
    intro A hA
    simp only [List.mem_append, List.mem_cons, List.mem_replicate] at hA
    rcases hA with ⟨-, rfl⟩ | rfl | ⟨-, rfl⟩ | rfl | ⟨-, rfl⟩
    · rfl
    · exact hU
    · rfl
    · exact hV
    · rfl)]
  congr 1
  simp only [List.length_append, List.length_cons, List.length_replicate]
  omega

theorem pad2_cols (a b c : ℕ) {U V : Mat R} (hU : U.cols = 2) (hV : V.cols = 2) :
    (pad2 a b c U V).cols = 2 ^ (a + b + c + 2) := by
  simp only [pad2]
  rw [kron_cols_two (by
    intro A hA
    simp only [List.mem_append, List.mem_cons, List.mem_replicate] at hA
    rcases hA with ⟨-, rfl⟩ | rfl | ⟨-, rfl⟩ | rfl | ⟨-, rfl⟩
    · rfl
    · exact hU
    · rfl
    · exact hV
    · rfl)]
  congr 1
  simp only [List.length_append, List.length_cons, List.length_replicate]
  omega

theorem pad2_dagger [StarRing R] (a b c : ℕ) (U V : Mat R) :
    (pad2 a b c U V).dagger = pad2 a b c U.dagger V.dagger := by
  simp only [pad2, dagger_kron, List.map_append, List.map_cons, List.map_replicate,
    dagger_I]

theorem pad2_mul (a b c : ℕ) {U V U2 V2 : Mat R} (hU : U.cols = 2) (hV : V.cols = 2)
    (hU2 : U2.rows = 2) (hV2 : V2.rows = 2) :
    (pad2 a b c U V).mul (pad2 a b c U2 V2) = pad2 a b c (U.mul U2) (V.mul V2) := by
  have hf : List.Forall₂ (fun A B => B.rows = A.cols)
      (List.replicate a I ++ U :: (List.replicate b I ++ V :: List.replicate c I))
      (List.replicate a I ++ U2 :: (List.replicate b I ++ V2 :: List.replicate c I)) := by
    apply forall2_all2
    · intro A hA
      simp only [List.mem_append, List.mem_cons, List.mem_replicate] at hA
      rcases hA with ⟨-, rfl⟩ | rfl | ⟨-, rfl⟩ | rfl | ⟨-, rfl⟩
      · rfl
      · exact hU
      · rfl
      · exact hV
      · rfl
    · intro B hB
      simp only [List.mem_append, List.mem_cons, List.mem_replicate] at hB
      rcases hB with ⟨-, rfl⟩ | rfl | ⟨-, rfl⟩ | rfl | ⟨-, rfl⟩
      · rfl
      · exact hU2
      · rfl
      · exact hV2
      · rfl
    · simp
  simp only [pad2]
  rw [kron_mul hf]
  congr 1
  rw [List.zipWith_append _ _ _ _ _ (by simp), List.zipWith_cons_cons,
    List.zipWith_append _ _ _ _ _ (by simp), List.zipWith_cons_cons,
    List.zipWith_replicate', List.zipWith_replicate', List.zipWith_replicate', I_mul_I]

theorem pad2_add_fst (a b c : ℕ) (U1 U2 V : Mat R)
    (hr : U1.rows = U2.rows) (hc : U1.cols = U2.cols) :
    (pad2 a b c U1 V).add (pad2 a b c U2 V) = pad2 a b c (U1.add U2) V := by
  simp only [pad2]
  exact kron_add_mid (List.replicate a I)
    (List.replicate b I ++ V :: List.replicate c I) U1 U2 hr hc

theorem pad2_add_snd (a b c : ℕ) (U V1 V2 : Mat R)
    (hr : V1.rows = V2.rows) (hc : V1.cols = V2.cols) :
    (pad2 a b c U V1).add (pad2 a b c U V2) = pad2 a b c U (V1.add V2) := by
  simp only [pad2]
  have e : ∀ W : Mat R,
      List.replicate a I ++ U :: (List.replicate b I ++ W :: List.replicate c I) =
      (List.replicate a I ++ U :: List.replicate b I) ++ W :: List.replicate c I := by
    intro W
    simp [List.append_assoc]
  rw [e V1, e V2, e (V1.add V2)]
  exact kron_add_mid (List.replicate a I ++ U :: List.replicate b I)
    (List.replicate c I) V1 V2 hr hc

theorem pad2_isZero_fst (a b c : ℕ) {U : Mat R} (V : Mat R) (h : U.IsZero) :
    (pad2 a b c U V).IsZero := by
  simp only [pad2]
  exact isZero_kron_mid _ _ h

theorem pad2_isZero_snd (a b c : ℕ) (U : Mat R) {V : Mat R} (h : V.IsZero) :
    (pad2 a b c U V).IsZero := by
  simp only [pad2]
  rw [show List.replicate a (I : Mat R) ++ U :: (List.replicate b I ++ V :: List.replicate c I) =
      (List.replicate a I ++ U :: List.replicate b I) ++ V :: List.replicate c I from by
    simp [List.append_assoc]]
  exact isZero_kron_mid _ _ h

theorem pad2_II (a b c : ℕ) : pad2 a b c (I : Mat R) I = idMat (2 ^ (a + b + c + 2)) := by
  simp only [pad2]
  rw [replicate_sandwich (I : Mat R) b c (b + c + 1) (by omega),
    replicate_sandwich (I : Mat R) a (b + c + 1) ((a + b + c + 1) + 1) (by omega),
    kron_replicate_I]

section CtrlUnitary

variable [StarRing R]

theorem ctrl_first_unitary (a b c : ℕ) {G : Mat R} (hGr : G.rows = 2) (hGc : G.cols = 2)
    (hG : G.mul G.dagger = I) :
    ((pad2 a b c P0 I).add (pad2 a b c P1 G)).mul
      ((pad2 a b c P0 I).add (pad2 a b c P1 G)).dagger = idMat (2 ^ (a + b + c + 2)) := by
  rw [dagger_add, pad2_dagger, pad2_dagger, dagger_I]
  rw [add_mul_left _ _ _ (by rw [pad2_cols a b c rfl rfl, pad2_cols a b c rfl hGc])]
  rw [mul_add_right, mul_add_right]
  rw [pad2_mul a b c rfl rfl rfl rfl, P0_mul_dagger_P0, I_mul_I]
  rw [pad2_mul a b c rfl rfl rfl hGc]
  rw [pad2_mul a b c rfl hGc rfl rfl]
  rw [pad2_mul a b c rfl hGc rfl hGc, P1_mul_dagger_P1, hG]
  rw [add_isZero_right _ (pad2_isZero_fst a b c _ P0_mul_dagger_P1_isZero)]
  rw [add_isZero_left (pad2_isZero_fst a b c _ P1_mul_dagger_P0_isZero) _
    (by rw [pad2_rows a b c rfl (show (G.mul I).rows = 2 from hGr),
      pad2_rows a b c rfl rfl])
    (by rw [pad2_cols a b c rfl rfl, pad2_cols a b c rfl rfl])]
  rw [pad2_add_fst a b c P0 P1 I rfl rfl, P0_add_P1, pad2_II]

theorem ctrl_second_unitary (a b c : ℕ) {G : Mat R} (hGr : G.rows = 2) (hGc : G.cols = 2)
    (hG : G.mul G.dagger = I) :
    ((pad2 a b c I P0).add (pad2 a b c G P1)).mul
      ((pad2 a b c I P0).add (pad2 a b c G P1)).dagger = idMat (2 ^ (a + b + c + 2)) := by
  rw [dagger_add, pad2_dagger, pad2_dagger, dagger_I]
  rw [add_mul_left _ _ _ (by rw [pad2_cols a b c rfl rfl, pad2_cols a b c hGc rfl])]
  rw [mul_add_right, mul_add_right]
  rw [pad2_mul a b c rfl rfl rfl rfl, I_mul_I, P0_mul_dagger_P0]
  rw [pad2_mul a b c rfl rfl hGc rfl]
  rw [pad2_mul a b c hGc rfl rfl rfl]
  rw [pad2_mul a b c hGc rfl hGc rfl, P1_mul_dagger_P1, hG]
  rw [add_isZero_right _ (pad2_isZero_snd a b c _ P0_mul_dagger_P1_isZero)]
  rw [add_isZero_left (pad2_isZero_snd a b c _ P1_mul_dagger_P0_isZero) _
    (by rw [pad2_rows a b c (show (G.mul I).rows = 2 from hGr) rfl,
      pad2_rows a b c rfl rfl])
    (by rw [pad2_cols a b c rfl rfl, pad2_cols a b c rfl rfl])]
  rw [pad2_add_snd a b c I P0 P1 rfl rfl, P0_add_P1, pad2_II]

end CtrlUnitary

theorem pad3_rows (a b c d : ℕ) {U V W : Mat R}
    (hU : U.rows = 2) (hV : V.rows = 2) (hW : W.rows = 2) :
    (pad3 a b c d U V W).rows = 2 ^ (a + b + c + d + 3) := by
  simp only [pad3]
  rw [kron_rows_two (by
    intro A hA
    simp only [List.mem_append, List.mem_cons, List.mem_replicate] at hA
    rcases hA with ⟨-, rfl⟩ | rfl | ⟨-, rfl⟩ | rfl | ⟨-, rfl⟩ | rfl | ⟨-, rfl⟩
    · rfl
    · exact hU
    · rfl
    · exact hV
    · rfl
    · exact hW
    · rfl)]
  congr 1
  simp only [List.length_append, List.length_cons, List.length_replicate]
  omega

theorem pad3_cols (a b c d : ℕ) {U V W : Mat R}
    (hU : U.cols = 2) (hV : V.cols = 2) (hW : W.cols = 2) :
    (pad3 a b c d U V W).cols = 2 ^ (a + b + c + d + 3) := by
  simp only [pad3]
  rw [kron_cols_two (by
    intro A hA
    simp only [List.mem_append, List.mem_cons, List.mem_replicate] at hA
    rcases hA with ⟨-, rfl⟩ | rfl | ⟨-, rfl⟩ | rfl | ⟨-, rfl⟩ | rfl | ⟨-, rfl⟩
    · rfl
    · exact hU
    · rfl
    · exact hV
    · rfl
    · exact hW
    · rfl)]
  congr 1
  simp only [List.length_append, List.length_cons, List.length_replicate]
  omega

theorem pad3_dagger [StarRing R] (a b c d : ℕ) (U V W : Mat R) :
    (pad3 a b c d U V W).dagger = pad3 a b c d U.dagger V.dagger W.dagger := by
  simp only [pad3, dagger_kron, List.map_append, List.map_cons, List.map_replicate,
    dagger_I]

theorem pad3_mul (a b c d : ℕ) {U V W U2 V2 W2 : Mat R}
    (hU : U.cols = 2) (hV : V.cols = 2) (hW : W.cols = 2)
    (hU2 : U2.rows = 2) (hV2 : V2.rows = 2) (hW2 : W2.rows = 2) :
    (pad3 a b c d U V W).mul (pad3 a b c d U2 V2 W2) =
      pad3 a b c d (U.mul U2) (V.mul V2) (W.mul W2) := by
  have hf : List.Forall₂ (fun A B => B.rows = A.cols)
      (List.replicate a I ++ U :: (List.replicate b I ++ V ::
        (List.replicate c I ++ W :: List.replicate d I)))
      (List.replicate a I ++ U2 :: (List.replicate b I ++ V2 ::
        (List.replicate c I ++ W2 :: List.replicate d I))) := by
    apply forall2_all2
    · intro A hA
      simp only [List.mem_append, List.mem_cons, List.mem_replicate] at hA
      rcases hA with ⟨-, rfl⟩ | rfl | ⟨-, rfl⟩ | rfl | ⟨-, rfl⟩ | rfl | ⟨-, rfl⟩
      · rfl
      · exact hU
      · rfl
      · exact hV
      · rfl
      · exact hW
      · rfl
    · intro B hB
      simp only [List.mem_append, List.mem_cons, List.mem_replicate] at hB
      rcases hB with ⟨-, rfl⟩ | rfl | ⟨-, rfl⟩ | rfl | ⟨-, rfl⟩ | rfl | ⟨-, rfl⟩
      · rfl
      · exact hU2
      · rfl
      · exact hV2
      · rfl
      · exact hW2
      · rfl
    · simp
  simp only [pad3]
  rw [kron_mul hf]
  congr 1
  rw [List.zipWith_append _ _ _ _ _ (by simp), List.zipWith_cons_cons,
    List.zipWith_append _ _ _ _ _ (by simp), List.zipWith_cons_cons,
    List.zipWith_append _ _ _ _ _ (by simp), List.zipWith_cons_cons,
    List.zipWith_replicate', List.zipWith_replicate', List.zipWith_replicate',
    List.zipWith_replicate', I_mul_I]

theorem pad3_add_fst (a b c d : ℕ) (U1 U2 V W : Mat R)
    (hr : U1.rows = U2.rows) (hc : U1.cols = U2.cols) :
    (pad3 a b c d U1 V W).add (pad3 a b c d U2 V W) = pad3 a b c d (U1.add U2) V W := by
  simp only [pad3]
  exact kron_add_mid (List.replicate a I)
    (List.replicate b I ++ V :: (List.replicate c I ++ W :: List.replicate d I))
    U1 U2 hr hc

theorem pad3_add_snd (a b c d : ℕ) (U V1 V2 W : Mat R)
    (hr : V1.rows = V2.rows) (hc : V1.cols = V2.cols) :
    (pad3 a b c d U V1 W).add (pad3 a b c d U V2 W) = pad3 a b c d U (V1.add V2) W := by
  simp only [pad3]
  have e : ∀ Y : Mat R,
      List.replicate a I ++ U :: (List.replicate b I ++ Y ::
        (List.replicate c I ++ W :: List.replicate d I)) =
      (List.replicate a I ++ U :: List.replicate b I) ++ Y ::
        (List.replicate c I ++ W :: List.replicate d I) := by
    intro Y
    simp [List.append_assoc]
  rw [e V1, e V2, e (V1.add V2)]
  exact kron_add_mid (List.replicate a I ++ U :: List.replicate b I)
    (List.replicate c I ++ W :: List.replicate d I) V1 V2 hr hc

theorem pad3_add_trd (a b c d : ℕ) (U V W1 W2 : Mat R)
    (hr : W1.rows = W2.rows) (hc : W1.cols = W2.cols) :
    (pad3 a b c d U V W1).add (pad3 a b c d U V W2) = pad3 a b c d U V (W1.add W2) := by
  simp only [pad3]
  have e : ∀ Y : Mat R,
      List.replicate a I ++ U :: (List.replicate b I ++ V ::
        (List.replicate c I ++ Y :: List.replicate d I)) =
      (List.replicate a I ++ U :: (List.replicate b I ++ V :: List.replicate c I)) ++
        Y :: List.replicate d I := by
    intro Y
    simp [List.append_assoc]
  rw [e W1, e W2, e (W1.add W2)]
  exact kron_add_mid
    (List.replicate a I ++ U :: (List.replicate b I ++ V :: List.replicate c I))
    (List.replicate d I) W1 W2 hr hc

theorem pad3_isZero_fst (a b c d : ℕ) {U : Mat R} (V W : Mat R) (h : U.IsZero) :
    (pad3 a b c d U V W).IsZero := by
  simp only [pad3]
  exact isZero_kron_mid _ _ h

theorem pad3_isZero_snd (a b c d : ℕ) (U : Mat R) {V : Mat R} (W : Mat R) (h : V.IsZero) :
    (pad3 a b c d U V W).IsZero := by
  simp only [pad3]
  rw [show List.replicate a (I : Mat R) ++ U :: (List.replicate b I ++ V ::
      (List.replicate c I ++ W :: List.replicate d I)) =
      (List.replicate a I ++ U :: List.replicate b I) ++ V ::
        (List.replicate c I ++ W :: List.replicate d I) from by
    simp [List.append_assoc]]
  exact isZero_kron_mid _ _ h

theorem pad3_isZero_trd (a b c d : ℕ) (U V : Mat R) {W : Mat R} (h : W.IsZero) :
    (pad3 a b c d U V W).IsZero := by
  simp only [pad3]
  rw [show List.replicate a (I : Mat R) ++ U :: (List.replicate b I ++ V ::
      (List.replicate c I ++ W :: List.replicate d I)) =
      (List.replicate a I ++ U :: (List.replicate b I ++ V :: List.replicate c I)) ++
        W :: List.replicate d I from by
    simp [List.append_assoc]]
  exact isZero_kron_mid _ _ h

theorem add_isZero_both {A B : Mat R} (hA : A.IsZero) (hB : B.IsZero) :
    (A.add B).IsZero := by
  intro i j
  show A.entry i j + B.entry i j = 0
  rw [hA, hB, add_zero]

theorem pad3_III (a b c d : ℕ) :
    pad3 a b c d (I : Mat R) I I = idMat (2 ^ (a + b + c + d + 3)) := by
  simp only [pad3]
  rw [replicate_sandwich (I : Mat R) c d (c + d + 1) (by omega),
    replicate_sandwich (I : Mat R) b (c + d + 1) (b + c + d + 2) (by omega),
    replicate_sandwich (I : Mat R) a (b + c + d + 2) ((a + b + c + d + 2) + 1) (by omega),
    kron_replicate_I]

theorem P0_rows : (P0 : Mat R).rows = 2 := rfl

theorem P0_cols : (P0 : Mat R).cols = 2 := rfl

theorem P1_rows : (P1 : Mat R).rows = 2 := rfl

theorem P1_cols : (P1 : Mat R).cols = 2 := rfl

theorem X_rows : (X : Mat R).rows = 2 := rfl

theorem X_cols : (X : Mat R).cols = 2 := rfl

theorem I_rows : (I : Mat R).rows = 2 := rfl

theorem I_cols : (I : Mat R).cols = 2 := rfl

theorem addMat_rows (A B : Mat R) : (A.add B).rows = A.rows := rfl

theorem addMat_cols (A B : Mat R) : (A.add B).cols = A.cols := rfl

theorem mulMat_rows (A B : Mat R) : (A.mul B).rows = A.rows := rfl

theorem mulMat_cols (A B : Mat R) : (A.mul B).cols = B.cols := rfl

theorem dagger_rows [StarRing R] (A : Mat R) : A.dagger.rows = A.cols := rfl

theorem dagger_cols [StarRing R] (A : Mat R) : A.dagger.cols = A.rows := rfl

/-- Expanding a product of two four-term sums into the sixteen pairwise
products (left-nested rows). -/
theorem mul_add_four (T1 T2 T3 T4 S1 S2 S3 S4 : Mat R)
    (h12 : T1.cols = T2.cols) (h13 : T1.cols = T3.cols) (h14 : T1.cols = T4.cols) :
    (((T1.add T2).add T3).add T4).mul (((S1.add S2).add S3).add S4) =
    Mat.add (Mat.add (Mat.add
      ((((T1.mul S1).add (T1.mul S2)).add (T1.mul S3)).add (T1.mul S4))
      ((((T2.mul S1).add (T2.mul S2)).add (T2.mul S3)).add (T2.mul S4)))
      ((((T3.mul S1).add (T3.mul S2)).add (T3.mul S3)).add (T3.mul S4)))
      ((((T4.mul S1).add (T4.mul S2)).add (T4.mul S3)).add (T4.mul S4)) := by
  rw [add_mul_left ((T1.add T2).add T3) T4 _ h14,
    add_mul_left (T1.add T2) T3 _ h13, add_mul_left T1 T2 _ h12]
  simp only [mul_add_right]

section ToffUnitary

variable [StarRing R]

theorem toff1_unitary (a b c d : ℕ) :
    ((((pad3 a b c d (P0 : Mat R) P0 I).add (pad3 a b c d P1 P0 I)).add
      (pad3 a b c d P0 P1 I)).add (pad3 a b c d P1 P1 X)).mul
    ((((pad3 a b c d (P0 : Mat R) P0 I).add (pad3 a b c d P1 P0 I)).add
      (pad3 a b c d P0 P1 I)).add (pad3 a b c d P1 P1 X)).dagger =
    idMat (2 ^ (a + b + c + d + 3)) := by
  rw [dagger_add, dagger_add, dagger_add, pad3_dagger, pad3_dagger, pad3_dagger,
    pad3_dagger, dagger_I]
  rw [mul_add_four _ _ _ _ _ _ _ _
    (by simp [pad3_cols, P0_cols, P1_cols, X_cols, I_cols])
    (by simp [pad3_cols, P0_cols, P1_cols, X_cols, I_cols])
    (by simp [pad3_cols, P0_cols, P1_cols, X_cols, I_cols])]
  simp only [pad3_mul, mulMat_rows, mulMat_cols, dagger_rows, dagger_cols,
    P0_rows, P0_cols, P1_rows, P1_cols, X_rows, X_cols, I_rows, I_cols]
  simp only [P0_mul_dagger_P0, P1_mul_dagger_P1, I_mul_I, X_mul_dagger_X]
  -- row 1: drop the three off-diagonal (zero) terms
  rw [add_isZero_right _ (pad3_isZero_fst a b c d P0 I P0_mul_dagger_P1_isZero),
    add_isZero_right _ (pad3_isZero_snd a b c d P0 I P0_mul_dagger_P1_isZero),
    add_isZero_right _ (pad3_isZero_fst a b c d (P0.mul P1.dagger)
      (I.mul X.dagger) P0_mul_dagger_P1_isZero)]
  -- row 2
  rw [add_isZero_right _ (pad3_isZero_snd a b c d P1 (I.mul X.dagger)
      P0_mul_dagger_P1_isZero),
    add_isZero_right _ (pad3_isZero_fst a b c d (P0.mul P1.dagger) I
      P1_mul_dagger_P0_isZero),
    add_isZero_left (pad3_isZero_fst a b c d P0 I P1_mul_dagger_P0_isZero) _
      (by simp [pad3_rows, mulMat_rows, P0_rows, P1_rows, I_rows])
      (by simp [pad3_cols, mulMat_cols, dagger_cols, P0_cols, P1_cols, P0_rows, I_cols])]
  -- row 3
  rw [add_isZero_right _ (pad3_isZero_fst a b c d P1
      (I.mul X.dagger) P0_mul_dagger_P1_isZero),
    add_isZero_left (add_isZero_both
        (pad3_isZero_snd a b c d P0 I P1_mul_dagger_P0_isZero)
        (pad3_isZero_fst a b c d (P1.mul P0.dagger) I P0_mul_dagger_P1_isZero)) _
      (by simp [pad3_rows, addMat_rows, mulMat_rows, P0_rows, P1_rows, I_rows])
      (by simp [pad3_cols, addMat_cols, mulMat_cols, dagger_cols, P0_cols, P1_cols,
        P0_rows, P1_rows, I_cols])]
  -- row 4
  rw [add_isZero_left (add_isZero_both (add_isZero_both
        (pad3_isZero_fst a b c d (P1.mul P0.dagger) (X.mul I) P1_mul_dagger_P0_isZero)
        (pad3_isZero_snd a b c d P1 (X.mul I) P1_mul_dagger_P0_isZero))
        (pad3_isZero_fst a b c d P1 (X.mul I) P1_mul_dagger_P0_isZero)) _
      (by simp [pad3_rows, addMat_rows, mulMat_rows, P0_rows, P1_rows, X_rows, I_rows])
      (by simp [pad3_cols, addMat_cols, mulMat_cols, dagger_cols, P0_cols, P1_cols,
        P0_rows, P1_rows, X_cols, I_cols])]
  -- combine the four diagonal terms by completeness, twice
  rw [pad3_add_fst a b c d P0 P1 P0 I rfl rfl, P0_add_P1, mat_add_assoc,
    pad3_add_fst a b c d P0 P1 P1 I rfl rfl, P0_add_P1,
    pad3_add_snd a b c d I P0 P1 I rfl rfl, P0_add_P1, pad3_III]

theorem toff2_unitary (a b c d : ℕ) :
    ((((pad3 a b c d (P0 : Mat R) I P0).add (pad3 a b c d P1 I P0)).add
      (pad3 a b c d P0 I P1)).add (pad3 a b c d P1 X P1)).mul
    ((((pad3 a b c d (P0 : Mat R) I P0).add (pad3 a b c d P1 I P0)).add
      (pad3 a b c d P0 I P1)).add (pad3 a b c d P1 X P1)).dagger =
    idMat (2 ^ (a + b + c + d + 3)) := by
  rw [dagger_add, dagger_add, dagger_add, pad3_dagger, pad3_dagger, pad3_dagger,
    pad3_dagger, dagger_I]
  rw [mul_add_four _ _ _ _ _ _ _ _
    (by simp [pad3_cols, P0_cols, P1_cols, X_cols, I_cols])
    (by simp [pad3_cols, P0_cols, P1_cols, X_cols, I_cols])
    (by simp [pad3_cols, P0_cols, P1_cols, X_cols, I_cols])]
  simp only [pad3_mul, mulMat_rows, mulMat_cols, dagger_rows, dagger_cols,
    P0_rows, P0_cols, P1_rows, P1_cols, X_rows, X_cols, I_rows, I_cols]
  simp only [P0_mul_dagger_P0, P1_mul_dagger_P1, I_mul_I, X_mul_dagger_X]
  -- row 1
  rw [add_isZero_right _ (pad3_isZero_fst a b c d I P0 P0_mul_dagger_P1_isZero),
    add_isZero_right _ (pad3_isZero_trd a b c d P0 I P0_mul_dagger_P1_isZero),
    add_isZero_right _ (pad3_isZero_fst a b c d (I.mul X.dagger)
      (P0.mul P1.dagger) P0_mul_dagger_P1_isZero)]
  -- row 2
  rw [add_isZero_right _ (pad3_isZero_trd a b c d P1 (I.mul X.dagger)
      P0_mul_dagger_P1_isZero),
    add_isZero_right _ (pad3_isZero_fst a b c d I (P0.mul P1.dagger)
      P1_mul_dagger_P0_isZero),
    add_isZero_left (pad3_isZero_fst a b c d I P0 P1_mul_dagger_P0_isZero) _
      (by simp [pad3_rows, mulMat_rows, P0_rows, P1_rows, I_rows])
      (by simp [pad3_cols, mulMat_cols, dagger_cols, P0_cols, P1_cols, P0_rows, I_cols])]
  -- row 3
  rw [add_isZero_right _ (pad3_isZero_fst a b c d (I.mul X.dagger) P1
      P0_mul_dagger_P1_isZero),
    add_isZero_left (add_isZero_both
        (pad3_isZero_trd a b c d P0 I P1_mul_dagger_P0_isZero)
        (pad3_isZero_fst a b c d I (P1.mul P0.dagger) P0_mul_dagger_P1_isZero)) _
      (by simp [pad3_rows, addMat_rows, mulMat_rows, P0_rows, P1_rows, I_rows])
      (by simp [pad3_cols, addMat_cols, mulMat_cols, dagger_cols, P0_cols, P1_cols,
        P0_rows, P1_rows, I_cols])]
  -- row 4
  rw [add_isZero_left (add_isZero_both (add_isZero_both
        (pad3_isZero_fst a b c d (X.mul I) (P1.mul P0.dagger) P1_mul_dagger_P0_isZero)
        (pad3_isZero_trd a b c d P1 (X.mul I) P1_mul_dagger_P0_isZero))
        (pad3_isZero_fst a b c d (X.mul I) P1 P1_mul_dagger_P0_isZero)) _
      (by simp [pad3_rows, addMat_rows, mulMat_rows, P0_rows, P1_rows, X_rows, I_rows])
      (by simp [pad3_cols, addMat_cols, mulMat_cols, dagger_cols, P0_cols, P1_cols,
        P0_rows, P1_rows, X_cols, I_cols])]
  rw [pad3_add_fst a b c d P0 P1 I P0 rfl rfl, P0_add_P1, mat_add_assoc,
    pad3_add_fst a b c d P0 P1 I P1 rfl rfl, P0_add_P1,
    pad3_add_trd a b c d I I P0 P1 rfl rfl, P0_add_P1, pad3_III]

theorem toff3_unitary (a b c d : ℕ) :
    ((((pad3 a b c d (I : Mat R) P0 P0).add (pad3 a b c d I P1 P0)).add
      (pad3 a b c d I P0 P1)).add (pad3 a b c d X P1 P1)).mul
    ((((pad3 a b c d (I : Mat R) P0 P0).add (pad3 a b c d I P1 P0)).add
      (pad3 a b c d I P0 P1)).add (pad3 a b c d X P1 P1)).dagger =
    idMat (2 ^ (a + b + c + d + 3)) := by
  rw [dagger_add, dagger_add, dagger_add, pad3_dagger, pad3_dagger, pad3_dagger,
    pad3_dagger, dagger_I]
  rw [mul_add_four _ _ _ _ _ _ _ _
    (by simp [pad3_cols, P0_cols, P1_cols, X_cols, I_cols])
    (by simp [pad3_cols, P0_cols, P1_cols, X_cols, I_cols])
    (by simp [pad3_cols, P0_cols, P1_cols, X_cols, I_cols])]
  simp only [pad3_mul, mulMat_rows, mulMat_cols, dagger_rows, dagger_cols,
    P0_rows, P0_cols, P1_rows, P1_cols, X_rows, X_cols, I_rows, I_cols]
  simp only [P0_mul_dagger_P0, P1_mul_dagger_P1, I_mul_I, X_mul_dagger_X]
  -- row 1
  rw [add_isZero_right _ (pad3_isZero_snd a b c d I P0 P0_mul_dagger_P1_isZero),
    add_isZero_right _ (pad3_isZero_trd a b c d I P0 P0_mul_dagger_P1_isZero),
    add_isZero_right _ (pad3_isZero_snd a b c d (I.mul X.dagger)
      (P0.mul P1.dagger) P0_mul_dagger_P1_isZero)]
  -- row 2
  rw [add_isZero_right _ (pad3_isZero_trd a b c d (I.mul X.dagger) P1
      P0_mul_dagger_P1_isZero),
    add_isZero_right _ (pad3_isZero_snd a b c d I (P0.mul P1.dagger)
      P1_mul_dagger_P0_isZero),
    add_isZero_left (pad3_isZero_snd a b c d I P0 P1_mul_dagger_P0_isZero) _
      (by simp [pad3_rows, mulMat_rows, P0_rows, P1_rows, I_rows])
      (by simp [pad3_cols, mulMat_cols, dagger_cols, P0_cols, P1_cols, P0_rows, I_cols])]
  -- row 3
  rw [add_isZero_right _ (pad3_isZero_snd a b c d (I.mul X.dagger) P1
      P0_mul_dagger_P1_isZero),
    add_isZero_left (add_isZero_both
        (pad3_isZero_trd a b c d I P0 P1_mul_dagger_P0_isZero)
        (pad3_isZero_snd a b c d I (P1.mul P0.dagger) P0_mul_dagger_P1_isZero)) _
      (by simp [pad3_rows, addMat_rows, mulMat_rows, P0_rows, P1_rows, I_rows])
      (by simp [pad3_cols, addMat_cols, mulMat_cols, dagger_cols, P0_cols, P1_cols,
        P0_rows, P1_rows, I_cols])]
  -- row 4
  rw [add_isZero_left (add_isZero_both (add_isZero_both
        (pad3_isZero_snd a b c d (X.mul I) (P1.mul P0.dagger) P1_mul_dagger_P0_isZero)
        (pad3_isZero_trd a b c d (X.mul I) P1 P1_mul_dagger_P0_isZero))
        (pad3_isZero_snd a b c d (X.mul I) P1 P1_mul_dagger_P0_isZero)) _
      (by simp [pad3_rows, addMat_rows, mulMat_rows, P0_rows, P1_rows, X_rows, I_rows])
      (by simp [pad3_cols, addMat_cols, mulMat_cols, dagger_cols, P0_cols, P1_cols,
        P0_rows, P1_rows, X_cols, I_cols])]
  rw [pad3_add_snd a b c d I P0 P1 P0 rfl rfl, P0_add_P1, mat_add_assoc,
    pad3_add_snd a b c d I P0 P1 P1 rfl rfl, P0_add_P1,
    pad3_add_trd a b c d I I P0 P1 rfl rfl, P0_add_P1, pad3_III]

end ToffUnitary

/-- C4: for every unitary 2×2 gate G (one with G·G† = Identity(2)) and every
valid pair of distinct in-range control/target indices, the operator
returned by `control_gate` is unitary on the 2^n-dimensional register; and
for any valid distinct in-range controls and target, the operator returned
by `TOFFOLI` is unitary as well. -/
theorem claim_C4 :
    (∀ (G : Mat K) (c t n : ℕ), G.rows = 2 → G.cols = 2 → G.mul G.dagger = I →
      c < n → t < n → c ≠ t →
      ∃ O, control_gate G c t n = Except.ok O ∧ O.mul O.dagger = idMat (2 ^ n)) ∧
    (∀ c1 c2 t n : ℕ, c1 ≠ t → c2 ≠ t → c1 ≠ c2 → c1 < n → c2 < n → t < n →
      ∃ O, (TOFFOLI c1 c2 t n : Except String (Mat K)) = Except.ok O ∧
        O.mul O.dagger = idMat (2 ^ n)) := by
  constructor
  · intro G c t n hGr hGc hG hc ht hne
    simp only [control_gate, if_neg hne, if_neg (show ¬(n < c ∨ n < t) from by omega)]
    rcases Nat.lt_or_ge c t with hct | hct
    · rw [if_pos hct]
      refine ⟨_, rfl, ?_⟩
      have e1 : add_gate (P0 : Mat K) c n = pad2 c (t - c - 1) (n - t - 1) P0 I := by
        simp only [add_gate, pad2]
        congr 1
        rw [← replicate_sandwich (I : Mat K) (t - c - 1) (n - t - 1) (n - (c + 1))
          (by omega)]
        simp [List.append_assoc]
      have e2 : kron (List.replicate c I ++ [P1] ++ List.replicate (t - c - 1) I ++
          [G] ++ List.replicate (n - t - 1) (I : Mat K)) =
          pad2 c (t - c - 1) (n - t - 1) P1 G := by
        simp only [pad2]
        congr 1
        simp [List.append_assoc]
      rw [e1, e2, ctrl_first_unitary _ _ _ hGr hGc hG,
        show c + (t - c - 1) + (n - t - 1) + 2 = n from by omega]
    · rw [if_neg (show ¬ c < t from by omega)]
      refine ⟨_, rfl, ?_⟩
      have e1 : add_gate (P0 : Mat K) c n = pad2 t (c - t - 1) (n - (c + 1)) I P0 := by
        simp only [add_gate, pad2]
        congr 1
        rw [← replicate_sandwich (I : Mat K) t (c - t - 1) c (by omega)]
        simp [List.append_assoc]
      have e2 : kron (List.replicate t I ++ [G] ++ List.replicate (c - t - 1) I ++
          [P1] ++ List.replicate (n - c - 1) (I : Mat K)) =
          pad2 t (c - t - 1) (n - (c + 1)) G P1 := by
        simp only [pad2]
        congr 1
        rw [show n - c - 1 = n - (c + 1) from by omega]
        simp [List.append_assoc]
      rw [e1, e2, ctrl_second_unitary _ _ _ hGr hGc hG,
        show t + (c - t - 1) + (n - (c + 1)) + 2 = n from by omega]
  · intro c1 c2 t n h1 h2 h12 hr1 hr2 hrt
    simp only [TOFFOLI, if_neg (show ¬(c1 = t ∨ c2 = t) from by tauto),
      if_neg (show ¬(¬ c1 < n ∨ ¬ t < n ∨ ¬ c2 < n) from by tauto)]
    have e : ∀ (a b c d : ℕ) (U V W : Mat K),
        kron (List.replicate a I ++ [U] ++ List.replicate b I ++ [V] ++
          List.replicate c I ++ [W] ++ List.replicate d I) = pad3 a b c d U V W := by
      intro a b c d U V W
      simp only [pad3]
      congr 1
      simp [List.append_assoc]
    by_cases hb1 : max c1 c2 < t
    · rw [if_pos hb1]
      refine ⟨_, rfl, ?_⟩
      rw [e, e, e, e, toff1_unitary,
        show min c1 c2 + (max c1 c2 - min c1 c2 - 1) + (t - max c1 c2 - 1) +
          (n - t - 1) + 3 = n from by omega]
    · by_cases hb2 : min c1 c2 < t ∧ t < max c1 c2
      · rw [if_neg hb1, if_pos hb2]
        refine ⟨_, rfl, ?_⟩
        rw [e, e, e, e, toff2_unitary,
          show min c1 c2 + (t - min c1 c2 - 1) + (max c1 c2 - t - 1) +
            (n - max c1 c2 - 1) + 3 = n from by omega]
      · have hb3 : t < min c1 c2 := by omega
        rw [if_neg hb1, if_neg hb2, if_pos hb3]
        refine ⟨_, rfl, ?_⟩
        rw [e, e, e, e, toff3_unitary,
          show t + (min c1 c2 - t - 1) + (max c1 c2 - min c1 c2 - 1) +
            (n - max c1 c2 - 1) + 3 = n from by omega]

/-- C4 witness: the controlled-X on two qubits and the standard TOFFOLI on
three qubits are unitary. -/
theorem claim_C4_witness :
    okE (control_gate (X : Mat K) 0 1 2) = true ∧
      (exGet (control_gate (X : Mat K) 0 1 2)).mul
        (exGet (control_gate (X : Mat K) 0 1 2)).dagger = idMat (2 ^ 2) ∧
      okE (TOFFOLI 0 1 2 3 : Except String (Mat K)) = true ∧
      (exGet (TOFFOLI 0 1 2 3 : Except String (Mat K))).mul
        (exGet (TOFFOLI 0 1 2 3 : Except String (Mat K))).dagger = idMat (2 ^ 3) := by
  obtain ⟨O1, hO1, hU1⟩ := claim_C4.1 X 0 1 2 rfl rfl X_mul_dagger_X
    (by decide) (by decide) (by decide)
  obtain ⟨O2, hO2, hU2⟩ := claim_C4.2 0 1 2 3
    (by decide) (by decide) (by decide) (by decide) (by decide) (by decide)
  rw [hO1, hO2]
  exact ⟨rfl, hU1, rfl, hU2⟩

end QPy
